import Mathlib

/-!
# Verification of the EC delivery-note / confirmation-of-receipt pipeline

A shallow embedding, in Lean 4, of the core decision logic of the repository:

* `src/app.js` — delivery-note candidate extraction
  (`extractPotentialDeliveryNotes`) and classification
  (`validateDeliveryNotes`): digit-count rules, leading-zero auto-correction,
  and the dominant-first-digit repair of 7-digit candidates.
* `src/CR.js` — OCR token normalisation (`normalizeToken`), the
  confirmation-of-receipt locator (`findCRsOnText`), page grouping
  (`groupPagesByCR`) and the stamp/signature/date decision table
  (`analyzeStampAndSignature`).

Modelling conventions:

* A JavaScript string is embedded as its character sequence `JStr := List Char`
  (human-readable reason messages, which are only ever constructed and compared,
  stay as Lean `String`).
* JavaScript regular-expression *tests of fixed character classes*
  (`/^\d+$/`, `/^1\d{7}$/`, …) are translated into executable character
  predicates.  The free-form regex searches inside `findCRsOnText`
  (anchor-phrase matching etc.) are abstracted as an explicit oracle
  parameter; the theorems about `findCRsOnText` hold for every behaviour of
  that oracle, hence in particular for the real regex engine.
* JavaScript numbers appearing as thresholds are embedded as exact rationals;
  the one fractional constant compared against integers (`0.3 × total`) is
  embedded as `3 × total` versus `10 × count`, which agrees with the binary
  float comparison for every realistic count.
* `occurrenceCount[x]` is a JS object lookup defaulting to `undefined`; it is
  embedded as a total function `List Char → Nat` where `0` encodes absence
  (counts in the source are always ≥ 1), and the JS idiom `n || 1` becomes
  `jsOr1`.
-/

/-! ## Characters and JS strings -/
/-- A JavaScript string, viewed as its sequence of characters. -/
abbrev JStr := List Char

/-- Render a `JStr` back as a Lean `String` (used when the source interpolates
a candidate value into a human-readable reason message). -/
def strOf (s : JStr) : String := String.mk s

/-- The JS regex class `\s` (whitespace), by code point. -/
def isJsWhitespace (c : Char) : Bool :=
  let n := c.toNat
  n = 32 || n = 9 || n = 10 || n = 11 || n = 12 || n = 13 ||
    n = 0xA0 || n = 0x1680 || (0x2000 ≤ n && n ≤ 0x200A) ||
    n = 0x2028 || n = 0x2029 || n = 0x202F || n = 0x205F || n = 0x3000 ||
    n = 0xFEFF

/-- The JS regex class `\d`, i.e. the characters `'0'`–`'9'`. -/
def isDigitChar (c : Char) : Bool := 48 ≤ c.toNat && c.toNat ≤ 57

/-- `text.replace(/\s+/g, '')`: removing every whitespace character. -/
def cleanWS (s : JStr) : JStr := s.filter (fun c => !isJsWhitespace c)

/-- The test `/^\d+$/.test(s)`: non-empty and all digits. -/
def isAllDigits (s : JStr) : Bool := !s.isEmpty && s.all isDigitChar

/-- `s.replace(/^0+/, '')`: strip every leading `'0'`. -/
def stripZeros (s : JStr) : JStr := s.dropWhile (fun c => c == '0')

/-- `s[0]`, the first character (only ever read on non-empty strings in the
source; the default is irrelevant there). -/
def charAt0 (s : JStr) : Char := s.headD ' '

/-- `s.startsWith('0')`. -/
def startsWith0 (s : JStr) : Bool := charAt0 s == '0'

/-- The JS idiom `n || 1` on a count that is `undefined` (here `0`) or ≥ 1. -/
def jsOr1 (n : Nat) : Nat := if n = 0 then 1 else n

/-! ## `src/app.js`: delivery-note extraction (`extractPotentialDeliveryNotes`,
lines 172–220)

The source accumulates `allCandidates` and `occurrenceCount` in one loop and
then derives `unique` and `duplicates`; the embedding constructs the same
final values directly. -/
structure DupEntry where
  value : JStr
  count : Nat
  reason : String
deriving DecidableEq, Repr

structure ReasonEntry where
  value : JStr
  reason : String
deriving DecidableEq, Repr

structure Correction where
  original : JStr
  corrected : JStr
  confidence : String
  reason : String
deriving DecidableEq, Repr

structure ExtractionResult where
  unique : List JStr
  duplicates : List DupEntry
  totalCount : Nat
  occurrenceCount : JStr → Nat

/-- The test `/^\d{7,12}$/.test(s)`. -/
def candMatches (s : JStr) : Bool :=
  7 ≤ s.length && s.length ≤ 12 && s.all isDigitChar

/-- `extractPotentialDeliveryNotes` (src/app.js 172–220): clean each text item,
keep the pure 7–12-digit tokens, count occurrences, dedupe (first-occurrence
order, as `[...new Set(xs)]`), and report values occurring more than once. -/
def extractPotentialDeliveryNotes (textItems : List JStr) : ExtractionResult :=
  let allCandidates :=
    (textItems.map cleanWS).filter (fun c => !c.isEmpty && candMatches c)
  let occ : JStr → Nat := fun v => (allCandidates.filter (fun c => c = v)).length
  let uniqueCandidates := allCandidates.eraseDups
  let duplicates :=
    (uniqueCandidates.filter (fun v => 1 < occ v)).map (fun v =>
      { value := v, count := occ v,
        reason := "Found " ++ toString (occ v) ++ " times in document" })
  { unique := uniqueCandidates, duplicates := duplicates,
    totalCount := allCandidates.length, occurrenceCount := occ }

/-! ## `src/app.js`: `validateDeliveryNotes` (lines 226–500)

The function is embedded as
pass 1 (the per-candidate classification loop, lines 249–387),
the dominant-digit computation (lines 393–418),
pass 2 (the 7-digit loop, lines 420–470), and
the final assembly (lines 473–490).
The mutable locals of the source become the fields of `VState`. -/
structure VState where
  accepted : List JStr
  excluded : List ReasonEntry
  invalid : List ReasonEntry
  autoCorrections : List Correction
  duplicates : List DupEntry
  duplicateCount : Nat
  seen : List JStr
  tempAccepted : List JStr
  pending7 : List JStr
deriving Repr

def initVState : VState :=
  { accepted := [], excluded := [], invalid := [], autoCorrections := [],
    duplicates := [], duplicateCount := 0, seen := [], tempAccepted := [],
    pending7 := [] }

/-- One iteration of the classification loop of `validateDeliveryNotes`
(src/app.js lines 249–387). -/
def classifyStep (occ : JStr → Nat) (s : VState) (note : JStr) : VState :=
  let cleaned := cleanWS note
  if cleaned.isEmpty then s
  else if !isAllDigits cleaned then
    { s with invalid :=
        s.invalid ++ [⟨cleaned, "Contains non-digit characters"⟩] }
  else
    let len := cleaned.length
    if len = 8 then
      -- both arms of the source's leading-zero sub-check (lines 264–277)
      -- accept the candidate as-is
      let stripped := stripZeros cleaned
      if stripped.length < 8 && 0 < stripped.length then
        { s with seen := s.seen ++ [cleaned],
                 tempAccepted := s.tempAccepted ++ [cleaned] }
      else
        { s with seen := s.seen ++ [cleaned],
                 tempAccepted := s.tempAccepted ++ [cleaned] }
    else if len = 9 && startsWith0 cleaned then
      let stripped := stripZeros cleaned
      if stripped.length = 8 then
        if stripped ∉ s.seen then
          { s with seen := s.seen ++ [stripped],
                   autoCorrections := s.autoCorrections ++
                     [⟨cleaned, stripped, "high", "Removed leading zero"⟩],
                   accepted := s.accepted ++ [stripped] }
        else
          let entry : DupEntry := ⟨stripped, jsOr1 (occ stripped) + 1,
            "Corrected from " ++ strOf cleaned ++ ", already exists"⟩
          { s with duplicates := s.duplicates ++ [entry],
                   duplicateCount := s.duplicateCount + 1 }
      else
        { s with excluded := s.excluded ++
            [⟨cleaned, "9 digits (excluded - likely Transport ID)"⟩] }
    else if len = 10 && startsWith0 cleaned then
      let stripped := stripZeros cleaned
      if stripped.length = 8 then
        if stripped ∉ s.seen then
          { s with seen := s.seen ++ [stripped],
                   autoCorrections := s.autoCorrections ++
                     [⟨cleaned, stripped, "high",
                       "Removed " ++ toString (len - 8) ++ " leading zero(s)"⟩],
                   accepted := s.accepted ++ [stripped] }
        else
          let entry : DupEntry := ⟨stripped, jsOr1 (occ stripped) + 1,
            "Corrected from " ++ strOf cleaned ++ ", already exists"⟩
          { s with duplicates := s.duplicates ++ [entry],
                   duplicateCount := s.duplicateCount + 1 }
      else
        { s with excluded := s.excluded ++
            [⟨cleaned, "10 digits (excluded - likely Transport ID)"⟩] }
    else if 10 < len && startsWith0 cleaned then
      let stripped := stripZeros cleaned
      if stripped.length = 8 then
        if stripped ∉ s.seen then
          { s with seen := s.seen ++ [stripped],
                   autoCorrections := s.autoCorrections ++
                     [⟨cleaned, stripped, "high",
                       "Removed " ++ toString (len - 8) ++ " leading zero(s)"⟩],
                   accepted := s.accepted ++ [stripped] }
        else
          let entry : DupEntry := ⟨stripped, 2,
            "Corrected from " ++ strOf cleaned ++ ", already exists"⟩
          { s with duplicates := s.duplicates ++ [entry],
                   duplicateCount := s.duplicateCount + 1 }
      else
        { s with invalid := s.invalid ++
            [⟨cleaned, toString len ++ " digits (expected 8)"⟩] }
    else if len = 9 || len = 10 then
      { s with excluded := s.excluded ++
          [⟨cleaned, toString len ++ " digits (excluded - likely Transport ID)"⟩] }
    else if len = 7 then
      { s with pending7 := s.pending7 ++ [cleaned] }
    else
      { s with invalid := s.invalid ++
          [⟨cleaned, toString len ++ " digits (expected 8)"⟩] }

/-- Pass 1 of `validateDeliveryNotes`: the classification loop over the unique
candidates. -/
def pass1 (occ : JStr → Nat) (rawNotes : List JStr) : VState :=
  rawNotes.foldl (classifyStep occ) initVState

/-- First-digit histogram entry (src/app.js lines 394–403): occurrences of `d`
as first character among `tempAccepted` and the corrected values of
`autoCorrections`. -/
def firstDigitCount (s : VState) (d : Char) : Nat :=
  (s.tempAccepted.filter (fun n => charAt0 n = d)).length +
    (s.autoCorrections.filter (fun c => charAt0 c.corrected = d)).length

def digitChars : List Char := ['0', '1', '2', '3', '4', '5', '6', '7', '8', '9']

/-- Dominant first digit (src/app.js lines 405–416).  JS object keys `'0'`–`'9'`
are array-index-like and are enumerated in ascending numeric order; a digit
wins only with `count > maxCount` and `count ≥ max(1, 0.3 × totalAccepted)`
(embedded ×10 to stay in `Nat`). -/
def dominantDigit (s : VState) : Option Char :=
  let totalAccepted := s.tempAccepted.length + s.autoCorrections.length
  (digitChars.foldl
    (fun acc d =>
      let count := firstDigitCount s d
      if acc.1 < count && max 10 (3 * totalAccepted) ≤ 10 * count
      then (count, some d) else acc)
    ((0 : Nat), (none : Option Char))).2

/-- One iteration of the 7-digit loop (src/app.js lines 420–470). -/
def process7Step (occ : JStr → Nat) (dom : Option Char) (s : VState)
    (pending : JStr) : VState :=
  match dom with
  | some d =>
    if charAt0 pending = d then
      { s with invalid := s.invalid ++
          [⟨pending, "7 digits - already starts with '" ++ d.toString ++
            "' (missing last digit, not first)"⟩] }
    else
      let corrected := d :: pending
      if corrected ∉ s.seen then
        { s with seen := s.seen ++ [corrected],
                 autoCorrections := s.autoCorrections ++
                   [⟨pending, corrected, "high",
                     "Added leading '" ++ d.toString ++ "'"⟩],
                 accepted := s.accepted ++ [corrected] }
      else
        let entry : DupEntry := ⟨corrected, jsOr1 (occ corrected) + 1,
          "Corrected from " ++ strOf pending ++ ", already exists (now " ++
            toString (jsOr1 (occ corrected) + 1) ++ " times)"⟩
        { s with duplicates := s.duplicates ++ [entry],
                 duplicateCount := s.duplicateCount + 1 }
  | none =>
    { s with invalid := s.invalid ++
        [⟨pending, "7 digits - needs manual review"⟩] }

structure VDNResults where
  accepted : List JStr
  excluded : List ReasonEntry
  invalid : List ReasonEntry
  autoCorrections : List Correction
  duplicates : List DupEntry
  uniqueCount : Nat
  duplicateCount : Nat
  totalOccurrences : Nat
deriving Repr

/-- One iteration of the extracted-duplicates merge (src/app.js lines 478–487). -/
def extractedDupStep (seen : List JStr) (acc : List DupEntry × Nat)
    (d : DupEntry) : List DupEntry × Nat :=
  if d.value.length = 8 && decide (d.value ∈ seen) then
    if !acc.1.any (fun x => x.value = d.value) then
      (acc.1 ++ [d], acc.2 + (d.count - 1))
    else acc
  else acc

/-- The state after both classification passes of `validateDeliveryNotes`:
pass 1 over the unique candidates, then the 7-digit loop (src/app.js lines
420–470) driven by the dominant digit of the pass-1 state. -/
def vdnPass2 (er : ExtractionResult) : VState :=
  let s1 := pass1 er.occurrenceCount er.unique
  s1.pending7.foldl (process7Step er.occurrenceCount (dominantDigit s1)) s1

/-- `validateDeliveryNotes` (src/app.js lines 226–500). -/
def validateDeliveryNotes (er : ExtractionResult) : VDNResults :=
  let s2 := vdnPass2 er
  let acceptedAll := s2.accepted ++ s2.tempAccepted
  let dupsFinal :=
    er.duplicates.foldl (extractedDupStep s2.seen) (s2.duplicates, s2.duplicateCount)
  { accepted := acceptedAll,
    excluded := s2.excluded,
    invalid := s2.invalid,
    autoCorrections := s2.autoCorrections,
    duplicates := dupsFinal.1,
    uniqueCount := acceptedAll.eraseDups.length,
    duplicateCount := dupsFinal.2,
    totalOccurrences := er.totalCount }

/-! ## Monotonicity: classification only appends to buckets -/
structure VLe (s t : VState) : Prop where
  acc : ∀ x ∈ s.accepted, x ∈ t.accepted
  exc : ∀ x ∈ s.excluded, x ∈ t.excluded
  inv : ∀ x ∈ s.invalid, x ∈ t.invalid
  auto : ∀ x ∈ s.autoCorrections, x ∈ t.autoCorrections
  dup : ∀ x ∈ s.duplicates, x ∈ t.duplicates
  tmp : ∀ x ∈ s.tempAccepted, x ∈ t.tempAccepted
  pend : ∀ x ∈ s.pending7, x ∈ t.pending7
  sn : ∀ x ∈ s.seen, x ∈ t.seen

/-! ## Shape invariants of the classification state -/
structure ClassInv (s : VState) : Prop where
  exc : ∀ e ∈ s.excluded, e.value.length = 9 ∨ e.value.length = 10
  inv : ∀ e ∈ s.invalid, isAllDigits e.value = false ∨ e.value.length ≠ 8
  pend : ∀ p ∈ s.pending7, p.length = 7 ∧ isAllDigits p = true
  auto : ∀ a ∈ s.autoCorrections, 9 ≤ a.original.length
  tmp : ∀ x ∈ s.tempAccepted, x.length = 8

/-- The reason string recorded by the leading-zero auto-correction: the 9-digit
branch writes a fixed message, the 10-digit and >10-digit branches interpolate
the number of zeros removed (src/app.js lines 289, 320, 351). -/
def zeroReason (n : Nat) : String :=
  if n = 9 then "Removed leading zero"
  else "Removed " ++ toString (n - 8) ++ " leading zero(s)"

/-- A candidate is represented somewhere in the (intermediate) classification
state: accepted (directly or via `tempAccepted`), excluded, invalid, recorded
as the original of an auto-correction, or logged as a duplicate (whose reason
message names the candidate). -/
def sBucketed (s : VState) (c : JStr) : Prop :=
  cleanWS c ∈ s.accepted ∨ cleanWS c ∈ s.tempAccepted ∨
    (∃ e ∈ s.excluded, e.value = cleanWS c) ∨
    (∃ e ∈ s.invalid, e.value = cleanWS c) ∨
    (∃ a ∈ s.autoCorrections, a.original = cleanWS c) ∨
    (∃ dEntry ∈ s.duplicates, ∃ suffix : String,
      dEntry.reason = "Corrected from " ++ strOf (cleanWS c) ++ suffix)

/-- A candidate is represented in the final `ClassificationResult`. -/
def bucketed (r : VDNResults) (c : JStr) : Prop :=
  cleanWS c ∈ r.accepted ∨
    (∃ e ∈ r.excluded, e.value = cleanWS c) ∨
    (∃ e ∈ r.invalid, e.value = cleanWS c) ∨
    (∃ a ∈ r.autoCorrections, a.original = cleanWS c) ∨
    (∃ dEntry ∈ r.duplicates, ∃ suffix : String,
      dEntry.reason = "Corrected from " ++ strOf (cleanWS c) ++ suffix)

/-! ## `src/CR.js`: token normalisation (`normalizeToken`, lines 204–221)

Each regex substitution of the source replaces a fixed character class by a
fixed character, so the pipeline is a composition of per-character maps and
filters, applied in exactly the source's order.  `toUpperCase` is modelled on
the ASCII range: all characters that the subsequent substitution table or the
digit filter can distinguish are ASCII, and ASCII uppercasing agrees with the
JS semantics there. -/
/-- `.replace(/ /g, ' ')`. -/
def nbspToSpace (c : Char) : Char := if c.toNat = 0xA0 then ' ' else c

/-- The class `[\s\-\.\,\_]` (whitespace, dash, dot, comma, underscore). -/
def isSepChar (c : Char) : Bool :=
  isJsWhitespace c || c.toNat = 45 || c.toNat = 46 || c.toNat = 44 ||
    c.toNat = 95

/-- `.toUpperCase()` on the ASCII range. -/
def jsToUpper (c : Char) : Char :=
  if 97 ≤ c.toNat ∧ c.toNat ≤ 122 then Char.ofNat (c.toNat - 32) else c

/-- `.replace(/[OQ]/g, '0')`. -/
def subOQ (c : Char) : Char :=
  if c.toNat = 79 ∨ c.toNat = 81 then '0' else c

/-- `.replace(/[IL|\]\[]/g, '1')`. -/
def subIL (c : Char) : Char :=
  if c.toNat = 73 ∨ c.toNat = 76 ∨ c.toNat = 124 ∨ c.toNat = 93 ∨
      c.toNat = 91 then '1' else c

/-- `.replace(/[Ss\$]/g, '5')`. -/
def subS (c : Char) : Char :=
  if c.toNat = 83 ∨ c.toNat = 115 ∨ c.toNat = 36 then '5' else c

/-- `.replace(/[B]/g, '8')`. -/
def subB (c : Char) : Char := if c.toNat = 66 then '8' else c

/-- `.replace(/[G]/g, '9')`. -/
def subG (c : Char) : Char := if c.toNat = 71 then '9' else c

/-- `.replace(/[Z]/g, '2')`. -/
def subZ (c : Char) : Char := if c.toNat = 90 then '2' else c

/-- `normalizeToken` (src/CR.js lines 204–221): NBSP → space; strip
separators; uppercase; OCR character corrections in the listed order; drop
the remaining non-digits. -/
def normalizeToken (raw : JStr) : JStr :=
  let s1 := raw.map nbspToSpace
  let s2 := s1.filter (fun c => !isSepChar c)
  let s3 := s2.map jsToUpper
  let s4 := (((((s3.map subOQ).map subIL).map subS).map subB).map subG).map
    subZ
  s4.filter isDigitChar

/-! ## `src/CR.js`: CR patterns and the locator `findCRsOnText` (lines 223–499)

The fixed-shape pattern tests (`CONFIG.patterns`) are executable predicates.
The free-form regex searches (anchor phrases, windowed token searches,
`matchAll` scans, exclusion contexts) are abstracted as a `RegexOracle`
record: each field returns what the corresponding regex operation of the
source returns (a captured token with its index, an anchor position with its
matched length, a Boolean test).  The theorems below quantify over every
oracle, so they hold in particular for the real regex engine. -/
/-- `CONFIG.patterns.EP1 = /^1\d{7}$/`. -/
def testEP1 : JStr → Bool
  | c :: rest => c == '1' && rest.length == 7 && rest.all isDigitChar
  | [] => false

/-- `CONFIG.patterns.H01 = /^5\d{5}$/`. -/
def testH01 : JStr → Bool
  | c :: rest => c == '5' && rest.length == 5 && rest.all isDigitChar
  | [] => false

/-- `isValidCR` (src/CR.js lines 223–225). -/
def isValidCR (v : JStr) : Bool := testEP1 v || testH01 v

/-- `getCRType` (src/CR.js lines 227–231). -/
def getCRType (v : JStr) : String :=
  if testEP1 v then "EP1" else if testH01 v then "H01" else "UNKNOWN"

/-- `.replace(/\r\n/g, '\n').replace(/\r/g, '\n')` (src/CR.js line 265). -/
def fixNewlines : JStr → JStr
  | [] => []
  | '\r' :: '\n' :: rest => '\n' :: fixNewlines rest
  | '\r' :: rest => '\n' :: fixNewlines rest
  | c :: rest => c :: fixNewlines rest

/-- One pass of `.replace(/(\d)\s+(\d)/g, '$1$2')` (src/CR.js lines 269–271):
left-to-right scan; a digit, one or more whitespace characters and a digit
are replaced by the two digits, and scanning resumes after the match. -/
def collapseDigitSpace : JStr → JStr
  | [] => []
  | c :: rest =>
    if isDigitChar c then
      let ws := rest.takeWhile isJsWhitespace
      if ws.isEmpty then c :: collapseDigitSpace rest
      else
        match hdrop : rest.drop ws.length with
        | d :: tail =>
          if isDigitChar d then c :: d :: collapseDigitSpace tail
          else c :: collapseDigitSpace rest
        | [] => c :: collapseDigitSpace rest
    else c :: collapseDigitSpace rest
termination_by s => s.length
decreasing_by
  all_goals simp_wf
  all_goals
    first
      | omega
      | (have hlen := congrArg List.length hdrop
         simp only [List.length_drop, List.length_cons] at hlen
         omega)

/-- `normalizeOCRText` (src/CR.js lines 262–274): newline normalisation, then
three passes of digit-space collapsing. -/
def normalizeOCRText (t : JStr) : JStr :=
  collapseDigitSpace (collapseDigitSpace (collapseDigitSpace (fixNewlines t)))

/-- `s.substring(a, b)` for `a ≤ b` (the only shape the source uses). -/
def jsSubstring (s : JStr) (a b : Nat) : JStr := (s.take b).drop a

structure CRMatch where
  value : JStr
  type : String
  raw : JStr
  index : Nat
  source : String
  confidence : String
deriving DecidableEq, Repr

/-- The regex operations of `findCRsOnText`, abstracted: each field stands
for one regex of the source applied to a text, returning the data the source
reads off the match object. -/
structure RegexOracle where
  /-- `directPatterns[i].exec(searchText)`: capture group 1 and match index. -/
  directPattern : Nat → JStr → Option (JStr × Nat)
  /-- `strictAnchors[i].exec(normalizedText)`: match index and match length. -/
  strictAnchor : Nat → JStr → Option (Nat × Nat)
  /-- `searchWindow.match(/\b(5\d{5})\b/)`: capture and index in window. -/
  windowH01 : JStr → Option (JStr × Nat)
  /-- `searchWindow.match(/\b(1\d{7})\b/)`: capture and index in window. -/
  windowEP1 : JStr → Option (JStr × Nat)
  /-- `broadAnchors[i].exec(normalizedText)`: match index and match length. -/
  broadAnchor : Nat → JStr → Option (Nat × Nat)
  /-- `/^\s+[A-Za-zăâîșțĂÂÎȘȚ]{2,}/i.test(afterContext)`. -/
  postalAfterTest : JStr → Bool
  /-- `normalizedText.matchAll(/\b(5\d{5})\b/g)`: captures with indices. -/
  h01All : JStr → List (JStr × Nat)
  /-- `normalizedText.matchAll(/\b(1\d{7})\b/g)`: captures with indices. -/
  ep1All : JStr → List (JStr × Nat)
  /-- `/confirmation|receipt|Gelangen|bestätigung/i.test(nearbyContext)`. -/
  anchorNearbyTest : JStr → Bool
  /-- `isInExclusionContext(text, matchIndex, matchValue)` (lines 236–257). -/
  exclusionContext : JStr → Nat → JStr → Bool

/-- Priority 1 inner loop (src/CR.js lines 299–316): try each direct-anchor
pattern on one search text; an invalid capture falls through to the next
pattern. -/
def tryDirectOn (o : RegexOracle) (searchText : JStr) : List Nat → Option CRMatch
  | [] => none
  | i :: is =>
    match o.directPattern i searchText with
    | some (cap, idx) =>
      let norm := normalizeToken cap
      if isValidCR norm then
        some ⟨norm, getCRType norm, cap, idx, "direct_anchor", "high"⟩
      else tryDirectOn o searchText is
    | none => tryDirectOn o searchText is

/-- Priority 1 outer loop (src/CR.js line 298): the normalised text first,
then the raw text. -/
def priority1 (o : RegexOracle) : List JStr → Option CRMatch
  | [] => none
  | t :: ts =>
    match tryDirectOn o t [0, 1, 2] with
    | some m => some m
    | none => priority1 o ts

/-- The windowed H01 lookup shared by priorities 2 and 3 (src/CR.js lines
336–350 and 385–403 without the postal test): a found token is returned only
when its normalisation is a valid CR. -/
def windowH01Res (o : RegexOracle) (searchWindow : JStr) (anchorEnd : Nat) :
    Option CRMatch :=
  match o.windowH01 searchWindow with
  | some (cap, widx) =>
    let norm := normalizeToken cap
    if isValidCR norm then
      some ⟨norm, "H01", cap, anchorEnd + widx, "near_anchor", "high"⟩
    else none
  | none => none

/-- The windowed H01 lookup of priority 3, which additionally skips a token
that looks like a postal code (src/CR.js lines 385–403). -/
def broadH01Res (o : RegexOracle) (normalizedText searchWindow : JStr)
    (anchorEnd : Nat) : Option CRMatch :=
  match o.windowH01 searchWindow with
  | some (cap, widx) =>
    let norm := normalizeToken cap
    let absoluteIndex := anchorEnd + widx
    let afterContext := jsSubstring normalizedText (absoluteIndex + 6)
      (absoluteIndex + 56)
    let looksLikePostalCode := o.postalAfterTest afterContext
    if !looksLikePostalCode && isValidCR norm then
      some ⟨norm, "H01", cap, absoluteIndex, "near_anchor", "high"⟩
    else none
  | none => none

/-- The windowed EP1 lookup shared by priorities 2 and 3 (src/CR.js lines
352–367 and 405–420). -/
def windowEP1Res (o : RegexOracle) (searchWindow : JStr) (anchorEnd : Nat) :
    Option CRMatch :=
  match o.windowEP1 searchWindow with
  | some (cap, widx) =>
    let norm := normalizeToken cap
    if isValidCR norm then
      some ⟨norm, "EP1", cap, anchorEnd + widx, "near_anchor", "high"⟩
    else none
  | none => none

/-- Priority 2 (src/CR.js lines 319–368): strict anchors, a 50-character
window, H01 before EP1; an invalid H01 capture falls through to the EP1
check of the same window. -/
def priority2 (o : RegexOracle) (normalizedText : JStr) : List Nat → Option CRMatch
  | [] => none
  | i :: is =>
    match o.strictAnchor i normalizedText with
    | none => priority2 o normalizedText is
    | some (idx, len) =>
      let anchorEnd := idx + len
      let searchWindow := jsSubstring normalizedText anchorEnd
        (min (anchorEnd + 50) normalizedText.length)
      match windowH01Res o searchWindow anchorEnd with
      | some m => some m
      | none =>
        match windowEP1Res o searchWindow anchorEnd with
        | some m => some m
        | none => priority2 o normalizedText is

/-- Priority 3 (src/CR.js lines 370–421): broad anchors, a 100-character
window, with the postal-code exclusion on the H01 side. -/
def priority3 (o : RegexOracle) (normalizedText : JStr) : List Nat → Option CRMatch
  | [] => none
  | i :: is =>
    match o.broadAnchor i normalizedText with
    | none => priority3 o normalizedText is
    | some (idx, len) =>
      let anchorEnd := idx + len
      let searchWindow := jsSubstring normalizedText anchorEnd
        (min (anchorEnd + 100) normalizedText.length)
      match broadH01Res o normalizedText searchWindow anchorEnd with
      | some m => some m
      | none =>
        match windowEP1Res o searchWindow anchorEnd with
        | some m => some m
        | none => priority3 o normalizedText is

/-- Priority 4, H01 global scan (src/CR.js lines 431–451). -/
def globalH01Candidates (o : RegexOracle) (normalizedText : JStr) : List CRMatch :=
  (o.h01All normalizedText).foldl
    (fun acc m =>
      let cap := m.1
      let idx := m.2
      let norm := normalizeToken cap
      let afterMatch := jsSubstring normalizedText (idx + cap.length)
        (idx + cap.length + 50)
      let looksLikePostalCode := o.postalAfterTest afterMatch
      let nearbyContext := jsSubstring normalizedText (idx - 200) idx
      let hasAnchorNearby := o.anchorNearbyTest nearbyContext
      if isValidCR norm && !o.exclusionContext normalizedText idx cap &&
          !looksLikePostalCode then
        acc ++ [⟨norm, "H01", cap, idx, "global",
          if hasAnchorNearby then "medium" else "low"⟩]
      else acc)
    []

/-- Priority 4, EP1 global scan (src/CR.js lines 462–483): only run when the
H01 scan produced nothing, and only anchored matches are kept. -/
def globalEP1Candidates (o : RegexOracle) (normalizedText : JStr) : List CRMatch :=
  (o.ep1All normalizedText).foldl
    (fun acc m =>
      let cap := m.1
      let idx := m.2
      let norm := normalizeToken cap
      let nearbyContext := jsSubstring normalizedText (idx - 200) idx
      let hasAnchorNearby := o.anchorNearbyTest nearbyContext
      if isValidCR norm && hasAnchorNearby &&
          !o.exclusionContext normalizedText idx cap then
        acc ++ [⟨norm, "EP1", cap, idx, "global", "medium"⟩]
      else acc)
    []

/-- Priority 4 (src/CR.js lines 423–498): medium-confidence H01 first, then
the possibly EP1-extended candidate list, preferring medium confidence. -/
def priority4 (o : RegexOracle) (normalizedText : JStr) : List CRMatch :=
  let globalCandidates := globalH01Candidates o normalizedText
  match globalCandidates.filter (fun c => c.confidence == "medium") with
  | m :: _ => [m]
  | [] =>
    let allCandidates :=
      if globalCandidates.isEmpty then globalEP1Candidates o normalizedText
      else globalCandidates
    match allCandidates.filter (fun c => c.confidence == "medium") with
    | m :: _ => [m]
    | [] =>
      match allCandidates with
      | m :: _ => [m]
      | [] => []

/-- `findCRsOnText` (src/CR.js lines 280–499). -/
def findCRsOnText (o : RegexOracle) (text : JStr) : List CRMatch :=
  if text.isEmpty then []
  else
    let normalizedText := normalizeOCRText text
    match priority1 o [normalizedText, text] with
    | some m => [m]
    | none =>
      match priority2 o normalizedText [0, 1, 2] with
      | some m => [m]
      | none =>
        match priority3 o normalizedText [0, 1] with
        | some m => [m]
        | none => priority4 o normalizedText

/-- A fixed oracle used to instantiate the locator on a concrete input. -/
def constOracle : RegexOracle :=
  { directPattern := fun _ _ => some ("577770".data, 0),
    strictAnchor := fun _ _ => none,
    windowH01 := fun _ => none,
    windowEP1 := fun _ => none,
    broadAnchor := fun _ _ => none,
    postalAfterTest := fun _ => false,
    h01All := fun _ => [],
    ep1All := fun _ => [],
    anchorNearbyTest := fun _ => false,
    exclusionContext := fun _ _ _ => false }

/-! ## `src/CR.js`: the page grouper (`groupPagesByCR`, lines 1067–1136)

A page record carries the per-page CR detection result (`cr` is the JS value
`candidates[0].value` or `null`); the loop of the source becomes `runSteps`
over the page list (each step sees the remaining pages, which is what the
source's index-based 2-page lookahead reads), the trailing push becomes
`finalizeGroups`, and the `Map`-based deduplication becomes `mergeGroups`
(the map keys are unique, so updating every association-list entry with the
same key updates exactly the one the source's `merged.get` mutates). -/
structure PageRec where
  pageIndex : Nat
  pageNum : Nat
  cr : Option JStr
  crType : String
deriving DecidableEq, Repr

/-- JS truthiness of `page.cr` (`null` and the empty string are falsy). -/
def pageHasCR (p : PageRec) : Bool :=
  match p.cr with
  | some v => !v.isEmpty
  | none => false

/-- The CR string of a page known to have one. -/
def jsCR (p : PageRec) : JStr := p.cr.getD []

structure CRGroup where
  cr : JStr
  crType : String
  pages : List PageRec
deriving DecidableEq, Repr

/-- The 2-page lookahead of the orphan branch (src/CR.js lines 1100–1106). -/
def lookaheadCR (rest : List PageRec) : Option JStr :=
  ((rest.take 2).find? pageHasCR).bind (fun p => p.cr)

/-- One iteration of the grouping loop (src/CR.js lines 1071–1119), given the
current page and the remaining pages (for the lookahead). -/
def groupStep (page : PageRec) (rest : List PageRec)
    (groups : List CRGroup) (cur : Option CRGroup) :
    List CRGroup × Option CRGroup :=
  if pageHasCR page then
    match cur with
    | some g =>
      if g.cr = jsCR page then
        (groups, some { g with pages := g.pages ++ [page] })
      else
        ((if g.pages.isEmpty then groups else groups ++ [g]),
          some ⟨jsCR page, page.crType, [page]⟩)
    | none => (groups, some ⟨jsCR page, page.crType, [page]⟩)
  else
    match cur with
    | some g =>
      if g.pages.isEmpty then
        match lookaheadCR rest with
        | some fcr => (groups, some ⟨fcr, getCRType fcr, [page]⟩)
        | none => (groups, cur)
      else (groups, some { g with pages := g.pages ++ [page] })
    | none =>
      match lookaheadCR rest with
      | some fcr => (groups, some ⟨fcr, getCRType fcr, [page]⟩)
      | none => (groups, cur)

def runSteps : List PageRec → List CRGroup × Option CRGroup →
    List CRGroup × Option CRGroup
  | [], st => st
  | p :: rest, st => runSteps rest (groupStep p rest st.1 st.2)

/-- The trailing push of the still-open group (src/CR.js lines 1121–1123). -/
def finalizeGroups (st : List CRGroup × Option CRGroup) : List CRGroup :=
  match st.2 with
  | some g => if g.pages.isEmpty then st.1 else st.1 ++ [g]
  | none => st.1

/-- One insertion into the deduplication map (src/CR.js lines 1127–1132). -/
def mergeInto (acc : List CRGroup) (g : CRGroup) : List CRGroup :=
  if acc.any (fun h => h.cr = g.cr) then
    acc.map (fun h =>
      if h.cr = g.cr then { h with pages := h.pages ++ g.pages } else h)
  else acc ++ [g]

/-- The deduplication pass (src/CR.js lines 1125–1135). -/
def mergeGroups (groups : List CRGroup) : List CRGroup :=
  groups.foldl mergeInto []

/-- The grouping loop plus the trailing push, before deduplication. -/
def groupLoopResult (pages : List PageRec) : List CRGroup :=
  finalizeGroups (runSteps pages ([], none))

/-- `groupPagesByCR` (src/CR.js lines 1067–1136). -/
def groupPagesByCR (pages : List PageRec) : List CRGroup :=
  mergeGroups (groupLoopResult pages)

/-- The state of the loop after it has consumed `pre` out of `pre ++ suff`
(each consumed page saw the rest of the whole list as its lookahead). -/
def cutRun : List PageRec → List PageRec → List CRGroup × Option CRGroup →
    List CRGroup × Option CRGroup
  | [], _, st => st
  | p :: ps, suff, st => cutRun ps suff (groupStep p (ps ++ suff) st.1 st.2)

/-- A page occurs somewhere in the loop state. -/
def inState (q : PageRec) (st : List CRGroup × Option CRGroup) : Prop :=
  (∃ g ∈ st.1, q ∈ g.pages) ∨ ∃ g, st.2 = some g ∧ q ∈ g.pages

/-! ## `src/CR.js`: stamp/signature/date verification
(`analyzeStampAndSignature`, lines 749–837)

The pixel-level measurement stage (`analyzeROI`, `analyzeSignatureStrokes`,
lines 520–728) reads a rendered canvas — a browser API — and produces density
and stroke statistics; those statistics are the abstracted inputs here,
embedded as exact rationals.  Everything after the measurements (the derived
Boolean signals of lines 675–678 and 740, the three status classifications
and the overall decision table) is translated directly. -/
inductive TriStatus
  | PRESENT
  | UNCERTAIN
  | MISSING
deriving DecidableEq, Repr, Fintype

inductive OverallStatus
  | COMPLETE
  | DATE_MISSING
  | STAMP_MISSING
  | SIGNATURE_MISSING
  | BOTH_MISSING
  | NEEDS_REVIEW
deriving DecidableEq, Repr

/-- The densities computed by `analyzeROI` (src/CR.js lines 520–577). -/
structure ROIAnalysis where
  density : ℚ
  blueDensity : ℚ
  blackDensity : ℚ
  largestComponentRatio : ℚ
deriving DecidableEq, Repr

/-- The stroke statistics computed by `analyzeSignatureStrokes`
(src/CR.js lines 587–690). -/
structure StrokeStats where
  darkStrokeDensity : ℚ
  veryDarkDensity : ℚ
  edgeDensity : ℚ
  strokeRatio : ℚ
deriving DecidableEq, Repr

/-- `hasSignaturePattern` (src/CR.js line 675). -/
def hasSignaturePattern (s : StrokeStats) : Bool :=
  decide ((0.15 : ℚ) < s.strokeRatio) && decide ((0.05 : ℚ) < s.darkStrokeDensity)

/-- `hasBlackInkSignature` (src/CR.js line 678). -/
def hasBlackInkSignature (s : StrokeStats) : Bool :=
  decide ((0.03 : ℚ) < s.veryDarkDensity)

/-- `analyzeDateField`'s `hasDate` (src/CR.js line 740). -/
def dateFieldHasDate (a : ROIAnalysis) : Bool :=
  decide ((0.3 : ℚ) < a.density) || decide ((0.1 : ℚ) < a.blackDensity) ||
    decide ((0.1 : ℚ) < a.blueDensity)

/-- The optional UI overrides of the thresholds (src/CR.js lines 753–755). -/
structure VerifyConfig where
  blueThreshold : Option ℚ
  signatureThreshold : Option ℚ
  compDensityThreshold : Option ℚ

/-- The JS idiom `config.x || CONFIG.defaults.x` (`0` is falsy). -/
def jsOrQ (v : Option ℚ) (d : ℚ) : ℚ :=
  match v with
  | some x => if x = 0 then d else x
  | none => d

/-- Stamp classification by blue-ink density (src/CR.js lines 764–773). -/
def stampStatusOf (blueDensity bt : ℚ) : TriStatus :=
  if bt ≤ blueDensity then .PRESENT
  else if bt * 0.5 ≤ blueDensity then .UNCERTAIN
  else .MISSING

/-- Signature classification with its confidence (src/CR.js lines 776–798;
the pattern branch reports `signatureAnalysis.confidence` of line 687). -/
def signatureStatusOf (sig : StrokeStats) : TriStatus × String :=
  if hasBlackInkSignature sig then (.PRESENT, "high")
  else if hasSignaturePattern sig then
    (.PRESENT,
      if hasBlackInkSignature sig then "high"
      else if hasSignaturePattern sig then "medium" else "low")
  else if decide ((0.5 : ℚ) < sig.darkStrokeDensity) &&
      decide ((0.1 : ℚ) < sig.strokeRatio) then (.UNCERTAIN, "low")
  else (.MISSING, "high")

/-- The overall decision table (src/CR.js lines 802–816). -/
def computeOverall (stamp sig : TriStatus) (hasDate : Bool) : OverallStatus :=
  if stamp = .PRESENT ∧ sig = .PRESENT then
    (if hasDate then .COMPLETE else .DATE_MISSING)
  else if stamp = .MISSING ∧ sig = .MISSING then .BOTH_MISSING
  else if stamp = .UNCERTAIN ∨ sig = .UNCERTAIN then .NEEDS_REVIEW
  else if stamp = .MISSING then .STAMP_MISSING
  else if sig = .MISSING then .SIGNATURE_MISSING
  else .NEEDS_REVIEW

structure Verification where
  overallStatus : OverallStatus
  stampStatus : TriStatus
  stampConfidence : String
  signatureStatus : TriStatus
  signatureConfidence : String
  dateStatus : Bool
deriving DecidableEq, Repr

/-- `analyzeStampAndSignature` (src/CR.js lines 749–837), as a function of
the measurement results of its ROI analyses. -/
def analyzeStampAndSignature (roiA dateA : ROIAnalysis) (sigA : StrokeStats)
    (config : VerifyConfig) : Verification :=
  let blueThreshold := jsOrQ config.blueThreshold 0.25
  let hasDate := dateFieldHasDate dateA
  let stamp := stampStatusOf roiA.blueDensity blueThreshold
  let sig := signatureStatusOf sigA
  { overallStatus := computeOverall stamp sig.1 hasDate,
    stampStatus := stamp,
    stampConfidence := if stamp = .UNCERTAIN then "low" else "high",
    signatureStatus := sig.1,
    signatureConfidence := sig.2,
    dateStatus := hasDate }

/-! ## Theorems -/

/-! ## Generic fold lemmas -/
theorem foldl_pres {σ α : Type _} (step : σ → α → σ) (P : σ → Prop)
    (h : ∀ s a, P s → P (step s a)) :
    ∀ (l : List α) (s : σ), P s → P (l.foldl step s) := by
  intro l
  induction l with
  | nil => intro s hs; exact hs
  | cons a t ih => intro s hs; exact ih _ (h _ _ hs)

theorem isDigitChar_not_ws {c : Char} (h : isDigitChar c = true) :
    isJsWhitespace c = false := by
  simp only [isDigitChar, Bool.and_eq_true, decide_eq_true_eq] at h
  simp only [isJsWhitespace, Bool.or_eq_false_iff, Bool.and_eq_false_iff,
    decide_eq_false_iff_not]
  omega

theorem cleanWS_of_allDigits {s : JStr} (h : s.all isDigitChar = true) :
    cleanWS s = s := by
  unfold cleanWS
  rw [List.filter_eq_self]
  intro c hc
  rw [List.all_eq_true] at h
  simp [isDigitChar_not_ws (h c hc)]

theorem cleanWS_idem (s : JStr) : cleanWS (cleanWS s) = cleanWS s := by
  unfold cleanWS
  rw [List.filter_eq_self]
  intro c hc
  exact (List.mem_filter.mp hc).2

theorem VLe.rfl (s : VState) : VLe s s :=
  ⟨fun _ h => h, fun _ h => h, fun _ h => h, fun _ h => h, fun _ h => h,
   fun _ h => h, fun _ h => h, fun _ h => h⟩

theorem VLe.trans {s t u : VState} (h1 : VLe s t) (h2 : VLe t u) : VLe s u :=
  ⟨fun x h => h2.acc x (h1.acc x h), fun x h => h2.exc x (h1.exc x h),
   fun x h => h2.inv x (h1.inv x h), fun x h => h2.auto x (h1.auto x h),
   fun x h => h2.dup x (h1.dup x h), fun x h => h2.tmp x (h1.tmp x h),
   fun x h => h2.pend x (h1.pend x h), fun x h => h2.sn x (h1.sn x h)⟩

theorem classifyStep_le (occ : JStr → Nat) (s : VState) (note : JStr) :
    VLe s (classifyStep occ s note) := by
  simp only [classifyStep]
  repeat' split
  all_goals
    refine ⟨?_, ?_, ?_, ?_, ?_, ?_, ?_, ?_⟩ <;>
      (intro x hx; first
        | exact hx
        | exact List.mem_append_left _ hx)

theorem process7Step_le (occ : JStr → Nat) (dom : Option Char) (s : VState)
    (pending : JStr) : VLe s (process7Step occ dom s pending) := by
  unfold process7Step
  cases dom with
  | none =>
    refine ⟨?_, ?_, ?_, ?_, ?_, ?_, ?_, ?_⟩ <;>
      (intro x hx; first
        | exact hx
        | exact List.mem_append_left _ hx)
  | some d =>
    by_cases h1 : charAt0 pending = d
    · simp only [if_pos h1]
      refine ⟨?_, ?_, ?_, ?_, ?_, ?_, ?_, ?_⟩ <;>
        (intro x hx; first
          | exact hx
          | exact List.mem_append_left _ hx)
    · simp only [if_neg h1]
      by_cases h2 : (d :: pending) ∉ s.seen
      · simp only [if_pos h2]
        refine ⟨?_, ?_, ?_, ?_, ?_, ?_, ?_, ?_⟩ <;>
          (intro x hx; first
            | exact hx
            | exact List.mem_append_left _ hx)
      · simp only [if_neg h2]
        refine ⟨?_, ?_, ?_, ?_, ?_, ?_, ?_, ?_⟩ <;>
          (intro x hx; first
            | exact hx
            | exact List.mem_append_left _ hx)

theorem foldl_classify_le (occ : JStr → Nat) (l : List JStr) (s : VState) :
    VLe s (l.foldl (classifyStep occ) s) := by
  induction l generalizing s with
  | nil => exact VLe.rfl s
  | cons a t ih => exact (classifyStep_le occ s a).trans (ih _)

theorem foldl_process7_le (occ : JStr → Nat) (dom : Option Char)
    (l : List JStr) (s : VState) :
    VLe s (l.foldl (process7Step occ dom) s) := by
  induction l generalizing s with
  | nil => exact VLe.rfl s
  | cons a t ih => exact (process7Step_le occ dom s a).trans (ih _)

theorem vdn_accepted (er : ExtractionResult) :
    (validateDeliveryNotes er).accepted =
      (vdnPass2 er).accepted ++ (vdnPass2 er).tempAccepted := rfl

theorem vdn_excluded (er : ExtractionResult) :
    (validateDeliveryNotes er).excluded = (vdnPass2 er).excluded := rfl

theorem vdn_invalid (er : ExtractionResult) :
    (validateDeliveryNotes er).invalid = (vdnPass2 er).invalid := rfl

theorem vdn_autoCorrections (er : ExtractionResult) :
    (validateDeliveryNotes er).autoCorrections = (vdnPass2 er).autoCorrections := rfl

/-- A member-aware fold-invariant principle. -/
theorem foldl_pres_mem {σ α : Type _} (step : σ → α → σ) (P : σ → Prop)
    (l : List α) (h : ∀ s a, a ∈ l → P s → P (step s a)) :
    ∀ s, P s → P (l.foldl step s) := by
  induction l with
  | nil => intro s hs; exact hs
  | cons a t ih =>
    intro s hs
    exact ih (fun s b hb => h s b (List.mem_cons_of_mem a hb)) _
      (h s a (List.mem_cons_self a t) hs)

theorem classifyStep_inv (occ : JStr → Nat) (s : VState) (note : JStr)
    (h : ClassInv s) : ClassInv (classifyStep occ s note) := by
  simp only [classifyStep]
  repeat' split
  all_goals
    refine ⟨?_, ?_, ?_, ?_, ?_⟩ <;> intro e he <;>
      (first
        | exact h.exc _ he
        | exact h.inv _ he
        | exact h.pend _ he
        | exact h.auto _ he
        | exact h.tmp _ he
        | (rcases List.mem_append.mp he with hmem | hmem
           · first
             | exact h.exc _ hmem
             | exact h.inv _ hmem
             | exact h.pend _ hmem
             | exact h.auto _ hmem
             | exact h.tmp _ hmem
           · simp only [List.mem_singleton] at hmem
             subst hmem
             simp_all only [Bool.and_eq_true, Bool.or_eq_true,
               decide_eq_true_eq, Bool.not_eq_true', Bool.not_eq_false',
               Bool.not_eq_true, Bool.not_eq_false]
             try omega
             try tauto))

theorem initVState_inv : ClassInv initVState := by
  refine ⟨?_, ?_, ?_, ?_, ?_⟩ <;> intro e he <;> simp [initVState] at he

theorem pass1_inv (occ : JStr → Nat) (notes : List JStr) :
    ClassInv (pass1 occ notes) :=
  foldl_pres (classifyStep occ) ClassInv (fun s a => classifyStep_inv occ s a)
    notes initVState initVState_inv

/-! ## Field equations and branch characterisations of the two step functions -/
theorem process7Step_stable (occ : JStr → Nat) (dom : Option Char) (s : VState)
    (p : JStr) :
    (process7Step occ dom s p).excluded = s.excluded ∧
      (process7Step occ dom s p).tempAccepted = s.tempAccepted ∧
      (process7Step occ dom s p).pending7 = s.pending7 := by
  unfold process7Step
  cases dom with
  | none => exact ⟨rfl, rfl, rfl⟩
  | some d =>
    by_cases h1 : charAt0 p = d
    · simp only [if_pos h1]
      exact ⟨trivial, trivial, trivial⟩
    · simp only [if_neg h1]
      by_cases h2 : (d :: p) ∉ s.seen
      · simp only [if_pos h2]
        exact ⟨trivial, trivial, trivial⟩
      · simp only [if_neg h2]
        exact ⟨trivial, trivial, trivial⟩

/-- The 7-digit loop body when the candidate already starts with the dominant
digit (src/app.js lines 430–437). -/
theorem process7Step_startsDom (occ : JStr → Nat) (d : Char) (s : VState)
    (p : JStr) (h : charAt0 p = d) :
    process7Step occ (some d) s p =
      { s with invalid := s.invalid ++
          [⟨p, "7 digits - already starts with '" ++ d.toString ++
            "' (missing last digit, not first)"⟩] } := by
  unfold process7Step
  simp only [if_pos h]

/-- The 7-digit loop body in the other two dominant-digit branches only ever
appends a correction whose original does not start with `d`. -/
theorem process7Step_auto_inv (occ : JStr → Nat) (d : Char) (s : VState)
    (p : JStr)
    (hP : ∀ a ∈ s.autoCorrections,
      9 ≤ a.original.length ∨ charAt0 a.original ≠ d) :
    ∀ a ∈ (process7Step occ (some d) s p).autoCorrections,
      9 ≤ a.original.length ∨ charAt0 a.original ≠ d := by
  unfold process7Step
  by_cases h1 : charAt0 p = d
  · simp only [if_pos h1]; exact hP
  · simp only [if_neg h1]
    by_cases h2 : (d :: p) ∉ s.seen
    · simp only [if_pos h2]
      intro a ha
      rcases List.mem_append.mp ha with hmem | hmem
      · exact hP a hmem
      · simp only [List.mem_singleton] at hmem
        subst hmem
        exact Or.inr h1
    · simp only [if_neg h2]; exact hP

/-- The 7-digit loop body preserves the invalid-bucket shape invariant. -/
theorem process7Step_invalid_inv (occ : JStr → Nat) (dom : Option Char)
    (s : VState) (p : JStr) (hlen : p.length = 7)
    (hP : ∀ e ∈ s.invalid, isAllDigits e.value = false ∨ e.value.length ≠ 8) :
    ∀ e ∈ (process7Step occ dom s p).invalid,
      isAllDigits e.value = false ∨ e.value.length ≠ 8 := by
  unfold process7Step
  cases dom with
  | none =>
    intro e he
    rcases List.mem_append.mp he with hmem | hmem
    · exact hP e hmem
    · simp only [List.mem_singleton] at hmem
      subst hmem
      exact Or.inr (by simp [hlen])
  | some d =>
    by_cases h1 : charAt0 p = d
    · simp only [if_pos h1]
      intro e he
      rcases List.mem_append.mp he with hmem | hmem
      · exact hP e hmem
      · simp only [List.mem_singleton] at hmem
        subst hmem
        exact Or.inr (by simp [hlen])
    · simp only [if_neg h1]
      by_cases h2 : (d :: p) ∉ s.seen
      · simp only [if_pos h2]; exact hP
      · simp only [if_neg h2]; exact hP

/-- The classification state after both passes still satisfies the
excluded/invalid shape invariants. -/
theorem vdnPass2_inv (er : ExtractionResult) :
    (∀ e ∈ (vdnPass2 er).excluded,
        e.value.length = 9 ∨ e.value.length = 10) ∧
      (∀ e ∈ (vdnPass2 er).invalid,
        isAllDigits e.value = false ∨ e.value.length ≠ 8) := by
  have h1 := pass1_inv er.occurrenceCount er.unique
  unfold vdnPass2
  refine foldl_pres_mem _
    (fun s : VState =>
      (∀ e ∈ s.excluded, e.value.length = 9 ∨ e.value.length = 10) ∧
        (∀ e ∈ s.invalid, isAllDigits e.value = false ∨ e.value.length ≠ 8))
    _ ?_ _ ⟨h1.exc, h1.inv⟩
  intro s p hp hs
  refine ⟨?_, ?_⟩
  · rw [(process7Step_stable _ _ s p).1]
    exact hs.1
  · exact process7Step_invalid_inv _ _ s p (h1.pend p hp).1 hs.2

theorem isAllDigits_not_empty {s : JStr} (h : isAllDigits s = true) :
    s.isEmpty = false := by
  unfold isAllDigits at h
  cases hb : s.isEmpty
  · rfl
  · rw [hb] at h
    simp at h

/-- Classification of an 8-digit candidate (src/app.js lines 263–277): both
arms of the leading-zero sub-check accept the cleaned value as-is. -/
theorem classifyStep_len8 (occ : JStr → Nat) (s : VState) (c : JStr)
    (hdig : isAllDigits (cleanWS c) = true)
    (hlen : (cleanWS c).length = 8) :
    classifyStep occ s c =
      { s with seen := s.seen ++ [cleanWS c],
               tempAccepted := s.tempAccepted ++ [cleanWS c] } := by
  have hne := isAllDigits_not_empty hdig
  simp [classifyStep, hne, hdig, hlen, ite_self]

/-- Leading-zero auto-correction, fresh case (src/app.js lines 283–292,
314–323, 345–354): a 9-, 10- or more-digit candidate starting with '0' whose
zero-stripped form has 8 digits and is not yet accepted is recorded as exactly
one correction and accepted. -/
theorem classifyStep_strip8_fresh (occ : JStr → Nat) (s : VState) (c : JStr)
    (hdig : isAllDigits (cleanWS c) = true)
    (hlen : 9 ≤ (cleanWS c).length)
    (h0 : startsWith0 (cleanWS c) = true)
    (hstrip : (stripZeros (cleanWS c)).length = 8)
    (hseen : stripZeros (cleanWS c) ∉ s.seen) :
    classifyStep occ s c =
      { s with seen := s.seen ++ [stripZeros (cleanWS c)],
               autoCorrections := s.autoCorrections ++
                 [⟨cleanWS c, stripZeros (cleanWS c), "high",
                   zeroReason (cleanWS c).length⟩],
               accepted := s.accepted ++ [stripZeros (cleanWS c)] } := by
  have hne := isAllDigits_not_empty hdig
  rcases Nat.lt_or_ge (cleanWS c).length 10 with hc9 | hc10
  · have h9 : (cleanWS c).length = 9 := by omega
    simp [classifyStep, hne, hdig, h9, h0, hstrip, hseen, zeroReason]
  · rcases Nat.lt_or_ge (cleanWS c).length 11 with hc10' | hc11
    · have h10 : (cleanWS c).length = 10 := by omega
      simp [classifyStep, hne, hdig, h10, h0, hstrip, hseen, zeroReason]
    · have e8 : (cleanWS c).length ≠ 8 := by omega
      have e9 : (cleanWS c).length ≠ 9 := by omega
      have e10 : (cleanWS c).length ≠ 10 := by omega
      have egt : 10 < (cleanWS c).length := by omega
      simp [classifyStep, hne, hdig, e8, e9, e10, egt, h0, hstrip, hseen,
        zeroReason]

/-- Leading-zero auto-correction, duplicate case (src/app.js lines 293–303,
324–334, 355–362): when the stripped value was already accepted, no
correction is recorded and no value is re-accepted — only a duplicates entry
is logged (with a fixed count of 2 in the >10-digit branch). -/
theorem classifyStep_strip8_dup (occ : JStr → Nat) (s : VState) (c : JStr)
    (hdig : isAllDigits (cleanWS c) = true)
    (hlen : 9 ≤ (cleanWS c).length)
    (h0 : startsWith0 (cleanWS c) = true)
    (hstrip : (stripZeros (cleanWS c)).length = 8)
    (hseen : stripZeros (cleanWS c) ∈ s.seen) :
    classifyStep occ s c =
      { s with duplicates := s.duplicates ++
                 [⟨stripZeros (cleanWS c),
                   if 10 < (cleanWS c).length then 2
                   else jsOr1 (occ (stripZeros (cleanWS c))) + 1,
                   "Corrected from " ++ strOf (cleanWS c) ++ ", already exists"⟩],
               duplicateCount := s.duplicateCount + 1 } := by
  have hne := isAllDigits_not_empty hdig
  have hseen' : ¬stripZeros (cleanWS c) ∉ s.seen := not_not_intro hseen
  rcases Nat.lt_or_ge (cleanWS c).length 10 with hc9 | hc10
  · have h9 : (cleanWS c).length = 9 := by omega
    have hlt : ¬10 < (cleanWS c).length := by omega
    simp [classifyStep, hne, hdig, h9, h0, hstrip, hseen', hlt]
  · rcases Nat.lt_or_ge (cleanWS c).length 11 with hc10' | hc11
    · have h10 : (cleanWS c).length = 10 := by omega
      have hlt : ¬10 < (cleanWS c).length := by omega
      simp [classifyStep, hne, hdig, h10, h0, hstrip, hseen', hlt]
    · have e8 : (cleanWS c).length ≠ 8 := by omega
      have e9 : (cleanWS c).length ≠ 9 := by omega
      have e10 : (cleanWS c).length ≠ 10 := by omega
      have egt : 10 < (cleanWS c).length := by omega
      simp [classifyStep, hne, hdig, e8, e9, e10, egt, h0, hstrip, hseen']

/-- The >10-digit branch when zero-stripping fails (src/app.js lines 363–369):
the candidate lands in `invalid`, not in `excluded`. -/
theorem classifyStep_gt10_fail (occ : JStr → Nat) (s : VState) (c : JStr)
    (hdig : isAllDigits (cleanWS c) = true)
    (hlen : 10 < (cleanWS c).length)
    (h0 : startsWith0 (cleanWS c) = true)
    (hstrip : (stripZeros (cleanWS c)).length ≠ 8) :
    classifyStep occ s c =
      { s with invalid := s.invalid ++
          [⟨cleanWS c,
            toString (cleanWS c).length ++ " digits (expected 8)"⟩] } := by
  have hne := isAllDigits_not_empty hdig
  have e8 : (cleanWS c).length ≠ 8 := by omega
  have e9 : (cleanWS c).length ≠ 9 := by omega
  have e10 : (cleanWS c).length ≠ 10 := by omega
  simp [classifyStep, hne, hdig, e8, e9, e10, hlen, h0, hstrip]

/-! ## Claim C1 -/
theorem pass1_cut (occ : JStr → Nat) (l1 l2 : List JStr) (c : JStr) :
    pass1 occ (l1 ++ c :: l2) =
      l2.foldl (classifyStep occ)
        (classifyStep occ (l1.foldl (classifyStep occ) initVState) c) := by
  unfold pass1
  rw [List.foldl_append, List.foldl_cons]

/-- C1: every candidate consisting of exactly 8 digit characters is placed in
the `accepted` bucket of `validateDeliveryNotes`, and never appears as the
value of an `excluded` or `invalid` entry, regardless of leading zeros. -/
theorem c1_eight_digits_accepted (er : ExtractionResult) (c : JStr)
    (hc : c ∈ er.unique) (hdig : c.all isDigitChar = true)
    (hlen : c.length = 8) :
    c ∈ (validateDeliveryNotes er).accepted ∧
      (∀ e ∈ (validateDeliveryNotes er).excluded, e.value ≠ c) ∧
      (∀ e ∈ (validateDeliveryNotes er).invalid, e.value ≠ c) := by
  have hclean : cleanWS c = c := cleanWS_of_allDigits hdig
  have hne : c.isEmpty = false := by
    cases c
    · simp at hlen
    · rfl
  have hdig' : isAllDigits (cleanWS c) = true := by
    rw [hclean]; simp [isAllDigits, hne, hdig]
  obtain ⟨l1, l2, hsplit⟩ := List.append_of_mem hc
  set occ := er.occurrenceCount with hocc
  have hstep := classifyStep_len8 occ
    (l1.foldl (classifyStep occ) initVState) c hdig' (by rw [hclean, hlen])
  have hmem1 : c ∈ (classifyStep occ
      (l1.foldl (classifyStep occ) initVState) c).tempAccepted := by
    rw [hstep, hclean]
    exact List.mem_append_right _ (List.mem_singleton.mpr rfl)
  have hmem2 : c ∈ (pass1 occ er.unique).tempAccepted := by
    rw [hsplit, pass1_cut]
    exact (foldl_classify_le occ l2 _).tmp c hmem1
  have hmem3 : c ∈ (vdnPass2 er).tempAccepted := by
    unfold vdnPass2
    exact (foldl_process7_le occ _ _ _).tmp c hmem2
  refine ⟨?_, ?_, ?_⟩
  · rw [vdn_accepted]
    exact List.mem_append_right _ hmem3
  · intro e he heq
    rw [vdn_excluded] at he
    rcases (vdnPass2_inv er).1 e he with h9 | h10
    · rw [heq, hlen] at h9; omega
    · rw [heq, hlen] at h10; omega
  · intro e he heq
    rw [vdn_invalid] at he
    rcases (vdnPass2_inv er).2 e he with hbad | hbad
    · rw [heq] at hbad
      rw [hclean] at hdig'
      rw [hdig'] at hbad
      simp at hbad
    · rw [heq, hlen] at hbad
      exact hbad rfl

theorem c1_eight_digits_accepted_witness :
    "26996798".data ∈ (validateDeliveryNotes
      (extractPotentialDeliveryNotes ["26996798".data])).accepted :=
  (c1_eight_digits_accepted (extractPotentialDeliveryNotes ["26996798".data])
    "26996798".data (by decide) (by decide) (by decide)).1

/-! ## Claim C2 -/
/-- C2 counterexample: `"00123456789"` (11 digits, starts with '0', stripped
remainder has 9 ≠ 8 digits).  The claim says it is `excluded` with reason
"11 digits (excluded - likely Transport ID)"; the code instead puts it in
`invalid` with reason "11 digits (expected 8)" and leaves `excluded` empty. -/
theorem c2_counterexample :
    (validateDeliveryNotes (extractPotentialDeliveryNotes
        ["00123456789".data])).excluded = [] ∧
      (validateDeliveryNotes (extractPotentialDeliveryNotes
        ["00123456789".data])).invalid =
        [⟨"00123456789".data, "11 digits (expected 8)"⟩] := by
  constructor
  · rfl
  · rfl

/-- C2 (amended): a digit string longer than 10 characters starting with '0'
whose zero-stripped remainder does not have exactly 8 digits is classified
`invalid` with reason "<n> digits (expected 8)"; it never appears in
`excluded`. -/
theorem c2_gt10_strip_fail_invalid (er : ExtractionResult) (c : JStr)
    (hc : c ∈ er.unique)
    (hdig : isAllDigits (cleanWS c) = true)
    (hlen : 10 < (cleanWS c).length)
    (h0 : startsWith0 (cleanWS c) = true)
    (hstrip : (stripZeros (cleanWS c)).length ≠ 8) :
    (∃ e ∈ (validateDeliveryNotes er).invalid,
        e.value = cleanWS c ∧
          e.reason = toString (cleanWS c).length ++ " digits (expected 8)") ∧
      ∀ e ∈ (validateDeliveryNotes er).excluded, e.value ≠ cleanWS c := by
  obtain ⟨l1, l2, hsplit⟩ := List.append_of_mem hc
  set occ := er.occurrenceCount with hocc
  have hstep := classifyStep_gt10_fail occ
    (l1.foldl (classifyStep occ) initVState) c hdig hlen h0 hstrip
  have hmem1 : (⟨cleanWS c,
      toString (cleanWS c).length ++ " digits (expected 8)"⟩ : ReasonEntry) ∈
      (classifyStep occ (l1.foldl (classifyStep occ) initVState) c).invalid := by
    rw [hstep]
    exact List.mem_append_right _ (List.mem_singleton.mpr rfl)
  have hmem2 := (foldl_classify_le occ l2 _).inv _ hmem1
  have hmem3 : (⟨cleanWS c,
      toString (cleanWS c).length ++ " digits (expected 8)"⟩ : ReasonEntry) ∈
      (pass1 occ er.unique).invalid := by
    rw [hsplit, pass1_cut]
    exact hmem2
  have hmem4 : (⟨cleanWS c,
      toString (cleanWS c).length ++ " digits (expected 8)"⟩ : ReasonEntry) ∈
      (vdnPass2 er).invalid := by
    unfold vdnPass2
    exact (foldl_process7_le occ _ _ _).inv _ hmem3
  refine ⟨⟨⟨cleanWS c, toString (cleanWS c).length ++ " digits (expected 8)"⟩,
    ?_, rfl, rfl⟩, ?_⟩
  · rw [vdn_invalid]
    exact hmem4
  · intro e he heq
    rw [vdn_excluded] at he
    rcases (vdnPass2_inv er).1 e he with h9 | h9 <;> (rw [heq] at h9; omega)

theorem c2_gt10_strip_fail_invalid_witness :
    ∃ e ∈ (validateDeliveryNotes (extractPotentialDeliveryNotes
        ["00123456789".data])).invalid,
      e.value = cleanWS "00123456789".data ∧
        e.reason = toString (cleanWS "00123456789".data).length ++
          " digits (expected 8)" :=
  (c2_gt10_strip_fail_invalid
    (extractPotentialDeliveryNotes ["00123456789".data]) "00123456789".data
    (by decide) (by decide) (by decide) (by decide) (by decide)).1

/-! ## Claim C3 -/
/-- C3 counterexample: for the input candidates `"012345678"` and
`"0012345678"` both strip to `"12345678"`.  The engine accepts the value for
the first candidate, logs only a duplicates entry (and **no** second
`autoCorrections` entry) for the second — so the stripped value ends up in
both `accepted` and `duplicates`, contradicting the claim's "never in both". -/
theorem c3_counterexample :
    "12345678".data ∈ (validateDeliveryNotes (extractPotentialDeliveryNotes
        ["012345678".data, "0012345678".data])).accepted ∧
      (∃ dEntry ∈ (validateDeliveryNotes (extractPotentialDeliveryNotes
          ["012345678".data, "0012345678".data])).duplicates,
        dEntry.value = "12345678".data) ∧
      (validateDeliveryNotes (extractPotentialDeliveryNotes
        ["012345678".data, "0012345678".data])).autoCorrections.length = 1 := by
  refine ⟨?_, ?_, ?_⟩ <;> decide

/-- C3 (amended): for a digit candidate of length ≥ 9 starting with '0' whose
zero-stripped remainder has exactly 8 digits, the classification step either
(fresh case) emits exactly one `autoCorrections` entry whose `corrected` is
the stripped value and appends the stripped value to `accepted`, or
(duplicate case: stripped value already in the running accepted set) emits
**no** `autoCorrections` entry, re-accepts nothing, and appends one
`duplicates` entry carrying the stripped value.  An already-accepted stripped
value is not removed, so the same value can appear in both `accepted` and a
later `duplicates` entry. -/
theorem c3_leading_zero_correction (occ : JStr → Nat) (s : VState) (c : JStr)
    (hdig : isAllDigits (cleanWS c) = true)
    (hlen : 9 ≤ (cleanWS c).length)
    (h0 : startsWith0 (cleanWS c) = true)
    (hstrip : (stripZeros (cleanWS c)).length = 8) :
    (stripZeros (cleanWS c) ∉ s.seen →
      (classifyStep occ s c).autoCorrections =
          s.autoCorrections ++
            [⟨cleanWS c, stripZeros (cleanWS c), "high",
              zeroReason (cleanWS c).length⟩] ∧
        (classifyStep occ s c).accepted =
          s.accepted ++ [stripZeros (cleanWS c)] ∧
        (classifyStep occ s c).duplicates = s.duplicates) ∧
    (stripZeros (cleanWS c) ∈ s.seen →
      (classifyStep occ s c).autoCorrections = s.autoCorrections ∧
        (classifyStep occ s c).accepted = s.accepted ∧
        ∃ dEntry, (classifyStep occ s c).duplicates =
          s.duplicates ++ [dEntry] ∧ dEntry.value = stripZeros (cleanWS c)) := by
  constructor
  · intro hfresh
    rw [classifyStep_strip8_fresh occ s c hdig hlen h0 hstrip hfresh]
    exact ⟨rfl, rfl, rfl⟩
  · intro hdup
    rw [classifyStep_strip8_dup occ s c hdig hlen h0 hstrip hdup]
    exact ⟨rfl, rfl, ⟨_, rfl, rfl⟩⟩

theorem c3_leading_zero_correction_witness :
    (classifyStep (fun _ => 1) initVState "012345678".data).autoCorrections =
      [⟨"012345678".data, "12345678".data, "high", "Removed leading zero"⟩] := by
  have h := (c3_leading_zero_correction (fun _ => 1) initVState
    "012345678".data (by decide) (by decide) (by decide) (by decide)).1
    (by decide)
  rw [h.1]
  decide

/-! ## Claim C4 -/
theorem c4_auto_inv (er : ExtractionResult) (d : Char)
    (hd : dominantDigit (pass1 er.occurrenceCount er.unique) = some d) :
    ∀ a ∈ (vdnPass2 er).autoCorrections,
      9 ≤ a.original.length ∨ charAt0 a.original ≠ d := by
  have h1 := pass1_inv er.occurrenceCount er.unique
  simp only [vdnPass2]
  rw [hd]
  refine foldl_pres _
    (fun s : VState => ∀ a ∈ s.autoCorrections,
      9 ≤ a.original.length ∨ charAt0 a.original ≠ d)
    ?_ _ _ (fun a ha => Or.inl (h1.auto a ha))
  intro s p hs
  exact process7Step_auto_inv er.occurrenceCount d s p hs

/-- C4: when a dominant first digit exists, every pending 7-digit candidate
that already starts with it is classified `invalid` with the
"already starts with" reason, and no `autoCorrections` entry is ever emitted
with it as original — it is never prepended and never accepted. -/
theorem c4_dominant_first_digit_invalid (er : ExtractionResult) (d : Char)
    (p : JStr)
    (hd : dominantDigit (pass1 er.occurrenceCount er.unique) = some d)
    (hp : p ∈ (pass1 er.occurrenceCount er.unique).pending7)
    (h0 : charAt0 p = d) :
    (∃ e ∈ (validateDeliveryNotes er).invalid,
        e.value = p ∧
          e.reason = "7 digits - already starts with '" ++ d.toString ++
            "' (missing last digit, not first)") ∧
      ∀ a ∈ (validateDeliveryNotes er).autoCorrections, a.original ≠ p := by
  have h1 := pass1_inv er.occurrenceCount er.unique
  have hplen : p.length = 7 := (h1.pend p hp).1
  set occ := er.occurrenceCount with hocc
  obtain ⟨l1, l2, hsplit⟩ := List.append_of_mem hp
  have hcut : vdnPass2 er =
      l2.foldl (process7Step occ (some d))
        (process7Step occ (some d)
          (l1.foldl (process7Step occ (some d)) (pass1 occ er.unique)) p) := by
    simp only [vdnPass2]
    rw [hd, hsplit, List.foldl_append, List.foldl_cons]
  have hstep := process7Step_startsDom occ d
    (l1.foldl (process7Step occ (some d)) (pass1 occ er.unique)) p h0
  have hmem1 : (⟨p, "7 digits - already starts with '" ++ d.toString ++
      "' (missing last digit, not first)"⟩ : ReasonEntry) ∈
      (process7Step occ (some d)
        (l1.foldl (process7Step occ (some d)) (pass1 occ er.unique)) p).invalid := by
    rw [hstep]
    exact List.mem_append_right _ (List.mem_singleton.mpr rfl)
  have hmem2 : (⟨p, "7 digits - already starts with '" ++ d.toString ++
      "' (missing last digit, not first)"⟩ : ReasonEntry) ∈
      (vdnPass2 er).invalid := by
    rw [hcut]
    exact (foldl_process7_le occ (some d) l2 _).inv _ hmem1
  refine ⟨⟨⟨p, "7 digits - already starts with '" ++ d.toString ++
    "' (missing last digit, not first)"⟩, ?_, rfl, rfl⟩, ?_⟩
  · rw [vdn_invalid]
    exact hmem2
  · intro a ha heq
    rw [vdn_autoCorrections] at ha
    rcases c4_auto_inv er d hd a ha with hbad | hbad
    · rw [heq, hplen] at hbad; omega
    · rw [heq, h0] at hbad; exact hbad rfl

theorem c4_dominant_first_digit_invalid_witness :
    ∃ e ∈ (validateDeliveryNotes (extractPotentialDeliveryNotes
        ["26996798".data, "27008029".data, "27005099".data,
         "2715703".data])).invalid,
      e.value = "2715703".data ∧
        e.reason = "7 digits - already starts with '" ++ Char.toString '2' ++
          "' (missing last digit, not first)" :=
  (c4_dominant_first_digit_invalid
    (extractPotentialDeliveryNotes
      ["26996798".data, "27008029".data, "27005099".data, "2715703".data])
    '2' "2715703".data (by decide) (by decide) (by decide)).1

/-! ## Claim C9: every candidate of an extraction result is bucketed -/
theorem mem_eraseDups_loop {α : Type _} [BEq α] (l : List α) (a : α) :
    ∀ acc : List α, a ∈ List.eraseDups.loop l acc → a ∈ l ∨ a ∈ acc := by
  induction l with
  | nil =>
    intro acc h
    simp only [List.eraseDups.loop] at h
    exact Or.inr (List.mem_reverse.mp h)
  | cons x xs ih =>
    intro acc h
    simp only [List.eraseDups.loop] at h
    split at h
    · rcases ih acc h with h1 | h1
      · exact Or.inl (List.mem_cons_of_mem x h1)
      · exact Or.inr h1
    · rcases ih (x :: acc) h with h1 | h1
      · exact Or.inl (List.mem_cons_of_mem x h1)
      · rcases List.mem_cons.mp h1 with h2 | h2
        · exact Or.inl (h2 ▸ List.mem_cons_self x xs)
        · exact Or.inr h2

theorem mem_of_mem_eraseDups {α : Type _} [BEq α] {l : List α} {a : α}
    (h : a ∈ l.eraseDups) : a ∈ l := by
  unfold List.eraseDups at h
  rcases mem_eraseDups_loop l a [] h with h1 | h1
  · exact h1
  · simp at h1

theorem sBucketed_mono {s t : VState} (hle : VLe s t) {c : JStr}
    (h : sBucketed s c) : sBucketed t c := by
  rcases h with h | h | ⟨e, he, hv⟩ | ⟨e, he, hv⟩ | ⟨a, ha, hv⟩ | ⟨d, hd, suf, hv⟩
  · exact Or.inl (hle.acc _ h)
  · exact Or.inr (Or.inl (hle.tmp _ h))
  · exact Or.inr (Or.inr (Or.inl ⟨e, hle.exc _ he, hv⟩))
  · exact Or.inr (Or.inr (Or.inr (Or.inl ⟨e, hle.inv _ he, hv⟩)))
  · exact Or.inr (Or.inr (Or.inr (Or.inr (Or.inl ⟨a, hle.auto _ ha, hv⟩))))
  · exact Or.inr (Or.inr (Or.inr (Or.inr (Or.inr ⟨d, hle.dup _ hd, suf, hv⟩))))

/-- The 9-digit strip-failure branch (src/app.js lines 304–308). -/
theorem classifyStep_strip_fail_9 (occ : JStr → Nat) (s : VState) (c : JStr)
    (hdig : isAllDigits (cleanWS c) = true)
    (h9 : (cleanWS c).length = 9)
    (h0 : startsWith0 (cleanWS c) = true)
    (hstrip : (stripZeros (cleanWS c)).length ≠ 8) :
    classifyStep occ s c =
      { s with excluded := s.excluded ++
          [⟨cleanWS c, "9 digits (excluded - likely Transport ID)"⟩] } := by
  have hne := isAllDigits_not_empty hdig
  simp [classifyStep, hne, hdig, h9, h0, hstrip]

/-- The 10-digit strip-failure branch (src/app.js lines 335–339). -/
theorem classifyStep_strip_fail_10 (occ : JStr → Nat) (s : VState) (c : JStr)
    (hdig : isAllDigits (cleanWS c) = true)
    (h10 : (cleanWS c).length = 10)
    (h0 : startsWith0 (cleanWS c) = true)
    (hstrip : (stripZeros (cleanWS c)).length ≠ 8) :
    classifyStep occ s c =
      { s with excluded := s.excluded ++
          [⟨cleanWS c, "10 digits (excluded - likely Transport ID)"⟩] } := by
  have hne := isAllDigits_not_empty hdig
  simp [classifyStep, hne, hdig, h10, h0, hstrip]

/-- The 9/10-digit branch without a leading zero (src/app.js lines 371–374). -/
theorem classifyStep_excluded_plain (occ : JStr → Nat) (s : VState) (c : JStr)
    (hdig : isAllDigits (cleanWS c) = true)
    (hlen : (cleanWS c).length = 9 ∨ (cleanWS c).length = 10)
    (h0 : startsWith0 (cleanWS c) = false) :
    classifyStep occ s c =
      { s with excluded := s.excluded ++
          [⟨cleanWS c, toString (cleanWS c).length ++
            " digits (excluded - likely Transport ID)"⟩] } := by
  have hne := isAllDigits_not_empty hdig
  rcases hlen with h | h <;>
    simp [classifyStep, hne, hdig, h, h0]

/-- The 7-digit branch (src/app.js lines 375–378). -/
theorem classifyStep_len7 (occ : JStr → Nat) (s : VState) (c : JStr)
    (hdig : isAllDigits (cleanWS c) = true)
    (h7 : (cleanWS c).length = 7) :
    classifyStep occ s c =
      { s with pending7 := s.pending7 ++ [cleanWS c] } := by
  have hne := isAllDigits_not_empty hdig
  simp [classifyStep, hne, hdig, h7]

/-- The catch-all invalid branch (src/app.js lines 379–386): lengths ≤ 6, or
> 10 without a leading zero. -/
theorem classifyStep_other_invalid (occ : JStr → Nat) (s : VState) (c : JStr)
    (hdig : isAllDigits (cleanWS c) = true)
    (hlen : (cleanWS c).length ≤ 6 ∨
      (10 < (cleanWS c).length ∧ startsWith0 (cleanWS c) = false)) :
    classifyStep occ s c =
      { s with invalid := s.invalid ++
          [⟨cleanWS c, toString (cleanWS c).length ++
            " digits (expected 8)"⟩] } := by
  have hne := isAllDigits_not_empty hdig
  rcases hlen with h | ⟨h, h0⟩
  · have e7 : (cleanWS c).length ≠ 7 := by omega
    have e8 : (cleanWS c).length ≠ 8 := by omega
    have e9 : (cleanWS c).length ≠ 9 := by omega
    have e10 : (cleanWS c).length ≠ 10 := by omega
    have elt : ¬10 < (cleanWS c).length := by omega
    simp [classifyStep, hne, hdig, e7, e8, e9, e10, elt]
  · have e7 : (cleanWS c).length ≠ 7 := by omega
    have e8 : (cleanWS c).length ≠ 8 := by omega
    have e9 : (cleanWS c).length ≠ 9 := by omega
    have e10 : (cleanWS c).length ≠ 10 := by omega
    simp [classifyStep, hne, hdig, e7, e8, e9, e10, h, h0]

theorem exists_mem_append_last {α : Type _} (l : List α) (x : α)
    (P : α → Prop) (h : P x) : ∃ e ∈ l ++ [x], P e :=
  ⟨x, List.mem_append_right _ (List.mem_singleton.mpr rfl), h⟩

/-- Every all-digit candidate processed by the classification loop body is
either bucketed by it or queued as a pending 7-digit candidate. -/
theorem classifyStep_self (occ : JStr → Nat) (s : VState) (c : JStr)
    (hdig : isAllDigits (cleanWS c) = true) :
    sBucketed (classifyStep occ s c) c ∨
      cleanWS c ∈ (classifyStep occ s c).pending7 := by
  set n := (cleanWS c).length with hn
  rcases Nat.lt_or_ge n 7 with hlt | hge
  · left
    rw [classifyStep_other_invalid occ s c hdig (Or.inl (by omega))]
    exact Or.inr (Or.inr (Or.inr (Or.inl (exists_mem_append_last _ _ _ rfl))))
  · rcases Nat.lt_or_ge n 8 with h7 | hge8
    · right
      rw [classifyStep_len7 occ s c hdig (by omega)]
      exact List.mem_append_right _ (List.mem_singleton.mpr rfl)
    · rcases Nat.lt_or_ge n 9 with h8 | hge9
      · left
        rw [classifyStep_len8 occ s c hdig (by omega)]
        exact Or.inr (Or.inl
          (List.mem_append_right _ (List.mem_singleton.mpr rfl)))
      · -- length ≥ 9
        by_cases h0 : startsWith0 (cleanWS c) = true
        · by_cases hstrip : (stripZeros (cleanWS c)).length = 8
          · by_cases hseen : stripZeros (cleanWS c) ∈ s.seen
            · left
              rw [classifyStep_strip8_dup occ s c hdig (by omega) h0 hstrip
                hseen]
              refine Or.inr (Or.inr (Or.inr (Or.inr (Or.inr
                ⟨_, List.mem_append_right _ (List.mem_singleton.mpr rfl),
                  ", already exists", rfl⟩))))
            · left
              rw [classifyStep_strip8_fresh occ s c hdig (by omega) h0 hstrip
                hseen]
              exact Or.inr (Or.inr (Or.inr (Or.inr (Or.inl (exists_mem_append_last _ _ _ rfl)))))
          · rcases Nat.lt_or_ge n 10 with h9 | hge10
            · left
              rw [classifyStep_strip_fail_9 occ s c hdig (by omega) h0 hstrip]
              exact Or.inr (Or.inr (Or.inl (exists_mem_append_last _ _ _ rfl)))
            · rcases Nat.lt_or_ge n 11 with h10 | hge11
              · left
                rw [classifyStep_strip_fail_10 occ s c hdig (by omega) h0
                  hstrip]
                exact Or.inr (Or.inr (Or.inl (exists_mem_append_last _ _ _ rfl)))
              · left
                rw [classifyStep_gt10_fail occ s c hdig (by omega) h0 hstrip]
                exact Or.inr (Or.inr (Or.inr (Or.inl (exists_mem_append_last _ _ _ rfl))))
        · have h0' : startsWith0 (cleanWS c) = false :=
            Bool.eq_false_iff.mpr h0
          rcases Nat.lt_or_ge n 11 with h910 | hge11
          · left
            rw [classifyStep_excluded_plain occ s c hdig (by omega) h0']
            exact Or.inr (Or.inr (Or.inl (exists_mem_append_last _ _ _ rfl)))
          · left
            rw [classifyStep_other_invalid occ s c hdig
              (Or.inr ⟨by omega, h0'⟩)]
            exact Or.inr (Or.inr (Or.inr (Or.inl (exists_mem_append_last _ _ _ rfl))))

/-- The 7-digit loop body buckets its own pending candidate. -/
theorem process7Step_self (occ : JStr → Nat) (dom : Option Char) (s : VState)
    (c : JStr) : sBucketed (process7Step occ dom s (cleanWS c)) c := by
  unfold process7Step
  cases dom with
  | none =>
    exact Or.inr (Or.inr (Or.inr (Or.inl (exists_mem_append_last _ _ _ rfl))))
  | some d =>
    by_cases h1 : charAt0 (cleanWS c) = d
    · simp only [if_pos h1]
      exact Or.inr (Or.inr (Or.inr (Or.inl (exists_mem_append_last _ _ _ rfl))))
    · simp only [if_neg h1]
      by_cases h2 : (d :: cleanWS c) ∉ s.seen
      · simp only [if_pos h2]
        exact Or.inr (Or.inr (Or.inr (Or.inr (Or.inl (exists_mem_append_last _ _ _ rfl)))))
      · simp only [if_neg h2]
        refine Or.inr (Or.inr (Or.inr (Or.inr (Or.inr
          ⟨_, List.mem_append_right _ (List.mem_singleton.mpr rfl),
            ", already exists (now " ++
              toString (jsOr1 (occ (d :: cleanWS c)) + 1) ++ " times)",
            ?_⟩))))
        simp [String.append_assoc]

theorem pass1_self (occ : JStr → Nat) (notes : List JStr) (c : JStr)
    (hc : c ∈ notes) (hdig : isAllDigits (cleanWS c) = true) :
    sBucketed (pass1 occ notes) c ∨
      cleanWS c ∈ (pass1 occ notes).pending7 := by
  obtain ⟨l1, l2, hsplit⟩ := List.append_of_mem hc
  rw [hsplit, pass1_cut]
  rcases classifyStep_self occ (l1.foldl (classifyStep occ) initVState) c hdig
    with h | h
  · exact Or.inl (sBucketed_mono (foldl_classify_le occ l2 _) h)
  · exact Or.inr ((foldl_classify_le occ l2 _).pend _ h)

theorem vdnPass2_bucketed (er : ExtractionResult) (c : JStr)
    (hc : c ∈ er.unique) (hdig : isAllDigits (cleanWS c) = true) :
    sBucketed (vdnPass2 er) c := by
  rcases pass1_self er.occurrenceCount er.unique c hc hdig with h | h
  · simp only [vdnPass2]
    exact sBucketed_mono (foldl_process7_le _ _ _ _) h
  · simp only [vdnPass2]
    obtain ⟨l1, l2, hsplit⟩ := List.append_of_mem h
    rw [hsplit, List.foldl_append, List.foldl_cons]
    exact sBucketed_mono (foldl_process7_le _ _ _ _)
      (process7Step_self _ _ _ _)

theorem vdn_duplicates (er : ExtractionResult) :
    (validateDeliveryNotes er).duplicates =
      (er.duplicates.foldl (extractedDupStep (vdnPass2 er).seen)
        ((vdnPass2 er).duplicates, (vdnPass2 er).duplicateCount)).1 := rfl

theorem extractedDup_fold_mono (seen : List JStr) (l : List DupEntry)
    (acc : List DupEntry × Nat) (x : DupEntry) (hx : x ∈ acc.1) :
    x ∈ (l.foldl (extractedDupStep seen) acc).1 := by
  refine foldl_pres _ (fun a : List DupEntry × Nat => x ∈ a.1) ?_ l acc hx
  intro a d ha
  unfold extractedDupStep
  split
  · split
    · exact List.mem_append_left _ ha
    · exact ha
  · exact ha

theorem bucketed_of_sBucketed (er : ExtractionResult) (c : JStr)
    (h : sBucketed (vdnPass2 er) c) :
    bucketed (validateDeliveryNotes er) c := by
  rcases h with h | h | h | h | h | ⟨dEntry, hd, suf, hv⟩
  · exact Or.inl (by rw [vdn_accepted]; exact List.mem_append_left _ h)
  · exact Or.inl (by rw [vdn_accepted]; exact List.mem_append_right _ h)
  · exact Or.inr (Or.inl (by rw [vdn_excluded]; exact h))
  · exact Or.inr (Or.inr (Or.inl (by rw [vdn_invalid]; exact h)))
  · exact Or.inr (Or.inr (Or.inr (Or.inl
      (by rw [vdn_autoCorrections]; exact h))))
  · refine Or.inr (Or.inr (Or.inr (Or.inr ⟨dEntry, ?_, suf, hv⟩)))
    rw [vdn_duplicates]
    exact extractedDup_fold_mono _ _ _ _ hd

/-- C9: `validateDeliveryNotes` is a total function of the extraction result
(the embedding is a plain Lean function, so classification never raises), and
every candidate of the extraction result is encoded as a bucketed outcome:
accepted, excluded, invalid, the original of an auto-correction, or named by
the reason message of a duplicates entry.  Each non-accepted bucket entry
carries a `reason` field by construction of its record type. -/
theorem c9_every_candidate_bucketed (textItems : List JStr) (c : JStr)
    (hc : c ∈ (extractPotentialDeliveryNotes textItems).unique) :
    bucketed (validateDeliveryNotes (extractPotentialDeliveryNotes textItems))
      c := by
  have hc' : c ∈ ((textItems.map cleanWS).filter
      (fun x => !x.isEmpty && candMatches x)).eraseDups := hc
  have hmem := mem_of_mem_eraseDups hc'
  have hfilter := List.mem_filter.mp hmem
  have hprop := hfilter.2
  simp only [candMatches, Bool.and_eq_true, decide_eq_true_eq] at hprop
  obtain ⟨hne', ⟨h7, h12⟩, hall⟩ := hprop
  obtain ⟨t, ht, hct⟩ := List.mem_map.mp hfilter.1
  have hcc : cleanWS c = c := by
    rw [← hct, cleanWS_idem]
  have hdig : isAllDigits (cleanWS c) = true := by
    rw [hcc]
    unfold isAllDigits
    rw [hall, hne']
    rfl
  exact bucketed_of_sBucketed _ _ (vdnPass2_bucketed _ _ hc hdig)

theorem c9_every_candidate_bucketed_witness :
    bucketed (validateDeliveryNotes
      (extractPotentialDeliveryNotes ["12345678".data])) "12345678".data :=
  c9_every_candidate_bucketed ["12345678".data] "12345678".data (by decide)

theorem digitChar_fixed {c : Char} (hc : isDigitChar c = true) :
    nbspToSpace c = c ∧ isSepChar c = false ∧ jsToUpper c = c ∧
      subOQ c = c ∧ subIL c = c ∧ subS c = c ∧ subB c = c ∧ subG c = c ∧
      subZ c = c := by
  simp only [isDigitChar, Bool.and_eq_true, decide_eq_true_eq] at hc
  refine ⟨?_, ?_, ?_, ?_, ?_, ?_, ?_, ?_, ?_⟩
  · unfold nbspToSpace; rw [if_neg (by omega)]
  · unfold isSepChar
    rw [isDigitChar_not_ws (by simp [isDigitChar]; omega)]
    simp only [Bool.false_or, Bool.or_eq_false_iff, decide_eq_false_iff_not]
    omega
  · unfold jsToUpper; rw [if_neg (by omega)]
  · unfold subOQ; rw [if_neg (by omega)]
  · unfold subIL; rw [if_neg (by omega)]
  · unfold subS; rw [if_neg (by omega)]
  · unfold subB; rw [if_neg (by omega)]
  · unfold subG; rw [if_neg (by omega)]
  · unfold subZ; rw [if_neg (by omega)]

theorem normalizeToken_all_digits (raw : JStr) :
    (normalizeToken raw).all isDigitChar = true := by
  rw [List.all_eq_true]
  intro c hc
  exact (List.mem_filter.mp hc).2

theorem normalizeToken_digits_fixed :
    ∀ s : JStr, s.all isDigitChar = true → normalizeToken s = s := by
  intro s
  induction s with
  | nil => intro _; rfl
  | cons a t ih =>
    intro h
    rw [List.all_cons, Bool.and_eq_true] at h
    obtain ⟨ha, ht⟩ := h
    obtain ⟨f1, f2, f3, f4, f5, f6, f7, f8, f9⟩ := digitChar_fixed ha
    have iht := ih ht
    simp only [normalizeToken, List.map_cons, List.filter_cons, f1, f2, f3,
      f4, f5, f6, f7, f8, f9, ha, Bool.not_false, if_true] at iht ⊢
    rw [iht]

/-! ## Claim C8 -/
/-- C8: the token normaliser is idempotent — `normalizeToken` applied twice
equals `normalizeToken` applied once, for every string; in particular a pure
digit string is returned unchanged. -/
theorem c8_normalizeToken_idempotent :
    (∀ s : JStr, normalizeToken (normalizeToken s) = normalizeToken s) ∧
      ∀ s : JStr, s.all isDigitChar = true → normalizeToken s = s :=
  ⟨fun s => normalizeToken_digits_fixed _ (normalizeToken_all_digits s),
    normalizeToken_digits_fixed⟩

theorem c8_normalizeToken_idempotent_witness :
    normalizeToken "12345678".data = "12345678".data :=
  c8_normalizeToken_idempotent.2 "12345678".data (by decide)

/-! ## Claim C5 -/
theorem isValidCR_all_digits {v : JStr} (h : isValidCR v = true) :
    v.all isDigitChar = true := by
  cases v with
  | nil => simp [isValidCR, testEP1, testH01] at h
  | cons c rest =>
    simp only [isValidCR, testEP1, testH01, Bool.or_eq_true, Bool.and_eq_true,
      beq_iff_eq] at h
    rcases h with ⟨⟨hc, _⟩, hall⟩ | ⟨⟨hc, _⟩, hall⟩ <;>
      (subst hc; rw [List.all_cons, hall]; rfl)

theorem tryDirectOn_valid (o : RegexOracle) (t : JStr) :
    ∀ (is : List Nat) (m : CRMatch), tryDirectOn o t is = some m →
      isValidCR m.value = true := by
  intro is
  induction is with
  | nil => intro m h; simp [tryDirectOn] at h
  | cons i is ih =>
    intro m h
    rw [tryDirectOn] at h
    cases ho : o.directPattern i t with
    | none => rw [ho] at h; exact ih m h
    | some p =>
      obtain ⟨cap, idx⟩ := p
      rw [ho] at h
      dsimp only at h
      split at h
      · cases h
        assumption
      · exact ih m h

theorem priority1_valid (o : RegexOracle) :
    ∀ (ts : List JStr) (m : CRMatch), priority1 o ts = some m →
      isValidCR m.value = true := by
  intro ts
  induction ts with
  | nil => intro m h; simp [priority1] at h
  | cons t ts ih =>
    intro m h
    rw [priority1] at h
    cases hd : tryDirectOn o t [0, 1, 2] with
    | none => rw [hd] at h; exact ih m h
    | some m0 =>
      rw [hd] at h
      injection h with h2
      subst h2
      exact tryDirectOn_valid o t [0, 1, 2] _ hd

theorem windowH01Res_valid (o : RegexOracle) (w : JStr) (ae : Nat)
    (m : CRMatch) (h : windowH01Res o w ae = some m) :
    isValidCR m.value = true := by
  unfold windowH01Res at h
  cases hw : o.windowH01 w with
  | none => rw [hw] at h; cases h
  | some q =>
    obtain ⟨cap, widx⟩ := q
    rw [hw] at h
    dsimp only at h
    split at h
    · injection h with h2
      subst h2
      assumption
    · cases h

theorem broadH01Res_valid (o : RegexOracle) (t w : JStr) (ae : Nat)
    (m : CRMatch) (h : broadH01Res o t w ae = some m) :
    isValidCR m.value = true := by
  unfold broadH01Res at h
  cases hw : o.windowH01 w with
  | none => rw [hw] at h; cases h
  | some q =>
    obtain ⟨cap, widx⟩ := q
    rw [hw] at h
    dsimp only at h
    split at h
    · injection h with h2
      subst h2
      rename_i hcond
      simp only [Bool.and_eq_true] at hcond
      exact hcond.2
    · cases h

theorem windowEP1Res_valid (o : RegexOracle) (w : JStr) (ae : Nat)
    (m : CRMatch) (h : windowEP1Res o w ae = some m) :
    isValidCR m.value = true := by
  unfold windowEP1Res at h
  cases hw : o.windowEP1 w with
  | none => rw [hw] at h; cases h
  | some q =>
    obtain ⟨cap, widx⟩ := q
    rw [hw] at h
    dsimp only at h
    split at h
    · injection h with h2
      subst h2
      assumption
    · cases h

theorem priority2_valid (o : RegexOracle) (t : JStr) :
    ∀ (is : List Nat) (m : CRMatch), priority2 o t is = some m →
      isValidCR m.value = true := by
  intro is
  induction is with
  | nil => intro m h; simp [priority2] at h
  | cons i is ih =>
    intro m h
    rw [priority2] at h
    cases ha : o.strictAnchor i t with
    | none => rw [ha] at h; exact ih m h
    | some p =>
      obtain ⟨idx, len⟩ := p
      rw [ha] at h
      dsimp only at h
      cases hH : windowH01Res o
          (jsSubstring t (idx + len) (min (idx + len + 50) t.length))
          (idx + len) with
      | some m1 =>
        rw [hH] at h
        injection h with h2
        subst h2
        exact windowH01Res_valid o _ _ _ hH
      | none =>
        rw [hH] at h
        cases hE : windowEP1Res o
            (jsSubstring t (idx + len) (min (idx + len + 50) t.length))
            (idx + len) with
        | some m1 =>
          rw [hE] at h
          injection h with h2
          subst h2
          exact windowEP1Res_valid o _ _ _ hE
        | none =>
          rw [hE] at h
          exact ih m h

theorem priority3_valid (o : RegexOracle) (t : JStr) :
    ∀ (is : List Nat) (m : CRMatch), priority3 o t is = some m →
      isValidCR m.value = true := by
  intro is
  induction is with
  | nil => intro m h; simp [priority3] at h
  | cons i is ih =>
    intro m h
    rw [priority3] at h
    cases ha : o.broadAnchor i t with
    | none => rw [ha] at h; exact ih m h
    | some p =>
      obtain ⟨idx, len⟩ := p
      rw [ha] at h
      dsimp only at h
      cases hH : broadH01Res o t
          (jsSubstring t (idx + len) (min (idx + len + 100) t.length))
          (idx + len) with
      | some m1 =>
        rw [hH] at h
        injection h with h2
        subst h2
        exact broadH01Res_valid o _ _ _ _ hH
      | none =>
        rw [hH] at h
        cases hE : windowEP1Res o
            (jsSubstring t (idx + len) (min (idx + len + 100) t.length))
            (idx + len) with
        | some m1 =>
          rw [hE] at h
          injection h with h2
          subst h2
          exact windowEP1Res_valid o _ _ _ hE
        | none =>
          rw [hE] at h
          exact ih m h

theorem globalH01Candidates_valid (o : RegexOracle) (t : JStr) :
    ∀ m ∈ globalH01Candidates o t, isValidCR m.value = true := by
  unfold globalH01Candidates
  refine foldl_pres _ (fun acc : List CRMatch =>
    ∀ m ∈ acc, isValidCR m.value = true) ?_ _ _ (by simp)
  intro acc p hacc m hm
  dsimp only at hm
  split at hm
  · rcases List.mem_append.mp hm with h1 | h1
    · exact hacc m h1
    · rename_i hcond
      simp only [List.mem_singleton] at h1
      subst h1
      simp only [Bool.and_eq_true] at hcond
      exact hcond.1.1
  · exact hacc m hm

theorem globalEP1Candidates_valid (o : RegexOracle) (t : JStr) :
    ∀ m ∈ globalEP1Candidates o t, isValidCR m.value = true := by
  unfold globalEP1Candidates
  refine foldl_pres _ (fun acc : List CRMatch =>
    ∀ m ∈ acc, isValidCR m.value = true) ?_ _ _ (by simp)
  intro acc p hacc m hm
  dsimp only at hm
  split at hm
  · rcases List.mem_append.mp hm with h1 | h1
    · exact hacc m h1
    · rename_i hcond
      simp only [List.mem_singleton] at h1
      subst h1
      simp only [Bool.and_eq_true] at hcond
      exact hcond.1.1
  · exact hacc m hm

theorem priority4_spec (o : RegexOracle) (t : JStr) :
    (priority4 o t).length ≤ 1 ∧
      ∀ m ∈ priority4 o t, isValidCR m.value = true := by
  have hH := globalH01Candidates_valid o t
  have hE := globalEP1Candidates_valid o t
  unfold priority4
  dsimp only
  cases hf : (globalH01Candidates o t).filter
      (fun c => c.confidence == "medium") with
  | cons m rest =>
    refine ⟨by simp, ?_⟩
    intro x hx
    simp only [List.mem_singleton] at hx
    subst hx
    have hx2 : x ∈ (globalH01Candidates o t).filter
        (fun c => c.confidence == "medium") := by
      rw [hf]; exact List.mem_cons_self _ _
    exact hH x (List.mem_filter.mp hx2).1
  | nil =>
    have hall : ∀ m ∈ (if (globalH01Candidates o t).isEmpty then
        globalEP1Candidates o t else globalH01Candidates o t),
        isValidCR m.value = true := by
      split
      · exact hE
      · exact hH
    cases hf2 : (if (globalH01Candidates o t).isEmpty then
        globalEP1Candidates o t else globalH01Candidates o t).filter
        (fun c => c.confidence == "medium") with
    | cons m rest =>
      refine ⟨by simp, ?_⟩
      intro x hx
      simp only [List.mem_singleton] at hx
      subst hx
      have hx2 : x ∈ (if (globalH01Candidates o t).isEmpty then
          globalEP1Candidates o t else globalH01Candidates o t).filter
          (fun c => c.confidence == "medium") := by
        rw [hf2]; exact List.mem_cons_self _ _
      exact hall x (List.mem_filter.mp hx2).1
    | nil =>
      cases hl : (if (globalH01Candidates o t).isEmpty then
          globalEP1Candidates o t else globalH01Candidates o t) with
      | nil => exact ⟨by simp, by simp⟩
      | cons m rest =>
        refine ⟨by simp, ?_⟩
        intro x hx
        simp only [List.mem_singleton] at hx
        subst hx
        exact hall x (by rw [hl]; exact List.mem_cons_self _ _)

/-- C5: for every behaviour of the regex primitives and every input text,
`findCRsOnText` returns at most one match, and every returned match has a
value satisfying one of the two accepted shapes (`^1\d{7}$`, type EP1, or
`^5\d{5}$`, type H01); being pure digits, the value is also a fixed point of
normalisation.  A result matching neither shape is never returned. -/
theorem c5_findCRs_at_most_one_valid (o : RegexOracle) (text : JStr) :
    (findCRsOnText o text).length ≤ 1 ∧
      ∀ m ∈ findCRsOnText o text,
        isValidCR m.value = true ∧ normalizeToken m.value = m.value := by
  have hfix : ∀ m : CRMatch, isValidCR m.value = true →
      isValidCR m.value = true ∧ normalizeToken m.value = m.value :=
    fun m h => ⟨h, normalizeToken_digits_fixed _ (isValidCR_all_digits h)⟩
  unfold findCRsOnText
  split
  · exact ⟨by simp, by simp⟩
  · dsimp only
    cases h1 : priority1 o [normalizeOCRText text, text] with
    | some m =>
      refine ⟨by simp, ?_⟩
      intro x hx
      simp only [List.mem_singleton] at hx
      subst hx
      exact hfix x (priority1_valid o _ x h1)
    | none =>
      cases h2 : priority2 o (normalizeOCRText text) [0, 1, 2] with
      | some m =>
        refine ⟨by simp, ?_⟩
        intro x hx
        simp only [List.mem_singleton] at hx
        subst hx
        exact hfix x (priority2_valid o _ _ x h2)
      | none =>
        cases h3 : priority3 o (normalizeOCRText text) [0, 1] with
        | some m =>
          refine ⟨by simp, ?_⟩
          intro x hx
          simp only [List.mem_singleton] at hx
          subst hx
          exact hfix x (priority3_valid o _ _ x h3)
        | none =>
          obtain ⟨hlen, hval⟩ := priority4_spec o (normalizeOCRText text)
          exact ⟨hlen, fun m hm => hfix m (hval m hm)⟩

theorem c5_findCRs_at_most_one_valid_witness :
    isValidCR (⟨"577770".data, "H01", "577770".data, 0, "direct_anchor",
        "high"⟩ : CRMatch).value = true ∧
      normalizeToken (⟨"577770".data, "H01", "577770".data, 0,
        "direct_anchor", "high"⟩ : CRMatch).value =
        (⟨"577770".data, "H01", "577770".data, 0, "direct_anchor",
          "high"⟩ : CRMatch).value :=
  (c5_findCRs_at_most_one_valid constOracle "x".data).2
    ⟨"577770".data, "H01", "577770".data, 0, "direct_anchor", "high"⟩
    (by decide)

theorem runSteps_append :
    ∀ (pre suff : List PageRec) (st : List CRGroup × Option CRGroup),
      runSteps (pre ++ suff) st = runSteps suff (cutRun pre suff st) := by
  intro pre
  induction pre with
  | nil => intro suff st; rfl
  | cons p ps ih =>
    intro suff st
    show runSteps (ps ++ suff) (groupStep p (ps ++ suff) st.1 st.2) =
      runSteps suff (cutRun ps suff (groupStep p (ps ++ suff) st.1 st.2))
    exact ih suff _

/-! ## Claim C10 -/
theorem forall_mem_append_one {α : Type _} {P : α → Prop} {l : List α} {x : α}
    (hl : ∀ a ∈ l, P a) (hx : P x) : ∀ a ∈ l ++ [x], P a := by
  intro a ha
  rcases List.mem_append.mp ha with h | h
  · exact hl a h
  · rw [List.mem_singleton] at h
    subst h
    exact hx

theorem pageHasCR_ne_nil {p : PageRec} (hp : pageHasCR p = true) :
    jsCR p ≠ [] := by
  unfold pageHasCR at hp
  unfold jsCR
  cases hc : p.cr with
  | none => rw [hc] at hp; cases hp
  | some v =>
    rw [hc] at hp
    simp only [Bool.not_eq_true'] at hp
    simp only [Option.getD_some]
    intro hnil
    subst hnil
    simp at hp

theorem lookaheadCR_ne_nil {rest : List PageRec} {fcr : JStr}
    (h : lookaheadCR rest = some fcr) : fcr ≠ [] := by
  unfold lookaheadCR at h
  cases hf : (rest.take 2).find? pageHasCR with
  | none => rw [hf] at h; cases h
  | some p =>
    rw [hf] at h
    have hp : pageHasCR p = true := List.find?_some hf
    have h2 : p.cr = some fcr := h
    unfold pageHasCR at hp
    cases hc : p.cr with
    | none => rw [hc] at hp; cases hp
    | some v =>
      rw [hc] at h2
      injection h2 with h2
      subst h2
      rw [hc] at hp
      simp only [Bool.not_eq_true'] at hp
      intro hnil
      subst hnil
      simp at hp

theorem groupStep_wf (page : PageRec) (rest : List PageRec)
    (groups : List CRGroup) (cur : Option CRGroup)
    (h1 : ∀ g ∈ groups, g.cr ≠ [] ∧ g.pages ≠ [])
    (h2 : ∀ g, cur = some g → g.cr ≠ [] ∧ g.pages ≠ []) :
    (∀ g ∈ (groupStep page rest groups cur).1, g.cr ≠ [] ∧ g.pages ≠ []) ∧
      ∀ g, (groupStep page rest groups cur).2 = some g →
        g.cr ≠ [] ∧ g.pages ≠ [] := by
  by_cases hp : pageHasCR page
  · cases cur with
    | none =>
      simp only [groupStep, if_pos hp]
      refine ⟨h1, ?_⟩
      intro g hg
      injection hg with hg
      subst hg
      exact ⟨pageHasCR_ne_nil hp, by simp⟩
    | some g0 =>
      simp only [groupStep, if_pos hp]
      by_cases he : g0.cr = jsCR page
      · rw [if_pos he]
        refine ⟨h1, ?_⟩
        intro g hg
        injection hg with hg
        subst hg
        exact ⟨(h2 g0 rfl).1, by simp⟩
      · rw [if_neg he]
        refine ⟨?_, ?_⟩
        · by_cases hemp : g0.pages.isEmpty
          · rw [if_pos hemp]
            exact h1
          · rw [if_neg hemp]
            exact forall_mem_append_one h1 (h2 g0 rfl)
        · intro g hg
          injection hg with hg
          subst hg
          exact ⟨pageHasCR_ne_nil hp, by simp⟩
  · cases cur with
    | some g0 =>
      simp only [groupStep, if_neg hp]
      by_cases hemp : g0.pages.isEmpty
      · rw [if_pos hemp]
        cases hla : lookaheadCR rest with
        | some fcr =>
          dsimp only
          refine ⟨h1, ?_⟩
          intro g hg
          injection hg with hg
          subst hg
          exact ⟨lookaheadCR_ne_nil hla, by simp⟩
        | none =>
          dsimp only
          exact ⟨h1, h2⟩
      · rw [if_neg hemp]
        refine ⟨h1, ?_⟩
        intro g hg
        injection hg with hg
        subst hg
        exact ⟨(h2 g0 rfl).1, by simp⟩
    | none =>
      simp only [groupStep, if_neg hp]
      cases hla : lookaheadCR rest with
      | some fcr =>
        dsimp only
        refine ⟨h1, ?_⟩
        intro g hg
        injection hg with hg
        subst hg
        exact ⟨lookaheadCR_ne_nil hla, by simp⟩
      | none =>
        dsimp only
        exact ⟨h1, h2⟩

theorem runSteps_wf (l : List PageRec) :
    ∀ st : List CRGroup × Option CRGroup,
      (∀ g ∈ st.1, g.cr ≠ [] ∧ g.pages ≠ []) →
      (∀ g, st.2 = some g → g.cr ≠ [] ∧ g.pages ≠ []) →
      (∀ g ∈ (runSteps l st).1, g.cr ≠ [] ∧ g.pages ≠ []) ∧
        ∀ g, (runSteps l st).2 = some g → g.cr ≠ [] ∧ g.pages ≠ [] := by
  induction l with
  | nil => intro st ha hb; exact ⟨ha, hb⟩
  | cons p rest ih =>
    intro st ha hb
    obtain ⟨ha', hb'⟩ := groupStep_wf p rest st.1 st.2 ha hb
    exact ih _ ha' hb'

theorem finalizeGroups_wf (st : List CRGroup × Option CRGroup)
    (ha : ∀ g ∈ st.1, g.cr ≠ [] ∧ g.pages ≠ [])
    (hb : ∀ g, st.2 = some g → g.cr ≠ [] ∧ g.pages ≠ []) :
    ∀ g ∈ finalizeGroups st, g.cr ≠ [] ∧ g.pages ≠ [] := by
  unfold finalizeGroups
  cases hc : st.2 with
  | none => exact ha
  | some g0 =>
    dsimp only
    by_cases hemp : g0.pages.isEmpty
    · rw [if_pos hemp]
      exact ha
    · rw [if_neg hemp]
      exact forall_mem_append_one ha (hb g0 hc)

theorem mergeInto_wf (acc : List CRGroup) (g : CRGroup)
    (hacc : ∀ h ∈ acc, h.cr ≠ [] ∧ h.pages ≠ [])
    (hg : g.cr ≠ [] ∧ g.pages ≠ []) :
    ∀ h ∈ mergeInto acc g, h.cr ≠ [] ∧ h.pages ≠ [] := by
  unfold mergeInto
  split
  · intro x hx
    obtain ⟨y, hy, hxy⟩ := List.mem_map.mp hx
    subst hxy
    by_cases he : y.cr = g.cr
    · rw [if_pos he]
      exact ⟨(hacc y hy).1, by simp [(hacc y hy).2]⟩
    · rw [if_neg he]
      exact hacc y hy
  · exact forall_mem_append_one hacc hg

theorem mergeGroups_wf (l : List CRGroup)
    (hl : ∀ g ∈ l, g.cr ≠ [] ∧ g.pages ≠ []) :
    ∀ g ∈ mergeGroups l, g.cr ≠ [] ∧ g.pages ≠ [] := by
  unfold mergeGroups
  refine foldl_pres_mem _
    (fun acc : List CRGroup => ∀ h ∈ acc, h.cr ≠ [] ∧ h.pages ≠ []) _
    ?_ _ (by simp)
  intro acc g hgl hacc
  exact mergeInto_wf acc g hacc (hl g hgl)

/-- C10: every group returned by `groupPagesByCR` has a non-empty (hence
non-null — the group constructor always receives a truthy value) identifier
and a non-empty page list, so the caller's skip of identifier-less groups
(src/CR.js lines 985–987) is unreachable. -/
theorem c10_groups_have_cr_and_pages (pages : List PageRec) :
    ∀ g ∈ groupPagesByCR pages, g.cr ≠ [] ∧ g.pages ≠ [] := by
  unfold groupPagesByCR groupLoopResult
  apply mergeGroups_wf
  apply finalizeGroups_wf
  · exact (runSteps_wf pages ([], none) (by simp) (by simp)).1
  · exact (runSteps_wf pages ([], none) (by simp) (by simp)).2

theorem c10_groups_have_cr_and_pages_witness :
    (⟨"577770".data, "H01",
        [⟨0, 1, some "577770".data, "H01"⟩, ⟨1, 2, none, ""⟩]⟩ : CRGroup).cr ≠
        [] ∧
      (⟨"577770".data, "H01",
        [⟨0, 1, some "577770".data, "H01"⟩, ⟨1, 2, none, ""⟩]⟩ : CRGroup).pages ≠
        [] :=
  c10_groups_have_cr_and_pages
    [⟨0, 1, some "577770".data, "H01"⟩, ⟨1, 2, none, ""⟩] _ (by decide)

/-! ## Claim C6: orphan-page grouping -/
theorem cutRun_wf (pre : List PageRec) :
    ∀ (suff : List PageRec) (st : List CRGroup × Option CRGroup),
      (∀ g ∈ st.1, g.cr ≠ [] ∧ g.pages ≠ []) →
      (∀ g, st.2 = some g → g.cr ≠ [] ∧ g.pages ≠ []) →
      (∀ g ∈ (cutRun pre suff st).1, g.cr ≠ [] ∧ g.pages ≠ []) ∧
        ∀ g, (cutRun pre suff st).2 = some g → g.cr ≠ [] ∧ g.pages ≠ [] := by
  induction pre with
  | nil => intro suff st ha hb; exact ⟨ha, hb⟩
  | cons p ps ih =>
    intro suff st ha hb
    obtain ⟨ha', hb'⟩ := groupStep_wf p (ps ++ suff) st.1 st.2 ha hb
    exact ih suff _ ha' hb'

/-- Persistence of a per-group property through one grouping step: if some
group (closed or open) has identifier `c` and its page list satisfies a
property `Q` stable under appending, the same holds after the step. -/
theorem groupStep_pres (c : JStr) (Q : List PageRec → Prop)
    (hQne : ∀ l, Q l → l ≠ [])
    (hQapp : ∀ (l : List PageRec) (x : PageRec), Q l → Q (l ++ [x]))
    (page : PageRec) (rest : List PageRec)
    (groups : List CRGroup) (cur : Option CRGroup)
    (h : (∃ h0 ∈ groups, h0.cr = c ∧ Q h0.pages) ∨
      (∃ g, cur = some g ∧ g.cr = c ∧ Q g.pages)) :
    (∃ h0 ∈ (groupStep page rest groups cur).1, h0.cr = c ∧ Q h0.pages) ∨
      ∃ g, (groupStep page rest groups cur).2 = some g ∧
        g.cr = c ∧ Q g.pages := by
  by_cases hp : pageHasCR page
  · cases cur with
    | none =>
      simp only [groupStep, if_pos hp]
      rcases h with h | ⟨g, hg, _⟩
      · exact Or.inl h
      · cases hg
    | some g0 =>
      simp only [groupStep, if_pos hp]
      by_cases he : g0.cr = jsCR page
      · rw [if_pos he]
        rcases h with h | ⟨g, hg, hc, hq⟩
        · exact Or.inl h
        · injection hg with hg
          subst hg
          exact Or.inr ⟨_, rfl, hc, hQapp _ _ hq⟩
      · rw [if_neg he]
        rcases h with ⟨h0, hh0, hc, hq⟩ | ⟨g, hg, hc, hq⟩
        · refine Or.inl ⟨h0, ?_, hc, hq⟩
          split
          · exact hh0
          · exact List.mem_append_left _ hh0
        · injection hg with hg
          subst hg
          have hne : g0.pages.isEmpty = false := by
            rcases hne' : g0.pages with _ | ⟨a, l⟩
            · exact absurd hne' (hQne _ hq)
            · rfl
          rw [hne]
          exact Or.inl ⟨g0, List.mem_append_right _ (List.mem_singleton.mpr rfl),
            hc, hq⟩
  · cases cur with
    | some g0 =>
      simp only [groupStep, if_neg hp]
      by_cases hemp : g0.pages.isEmpty
      · rw [if_pos hemp]
        rcases h with h | ⟨g, hg, _, hq⟩
        · cases hla : lookaheadCR rest with
          | some fcr => exact Or.inl h
          | none => exact Or.inl h
        · injection hg with hg
          subst hg
          rw [List.isEmpty_iff] at hemp
          exact absurd hemp (hQne _ hq)
      · rw [if_neg hemp]
        rcases h with h | ⟨g, hg, hc, hq⟩
        · exact Or.inl h
        · injection hg with hg
          subst hg
          exact Or.inr ⟨_, rfl, hc, hQapp _ _ hq⟩
    | none =>
      simp only [groupStep, if_neg hp]
      rcases h with h | ⟨g, hg, _⟩
      · cases hla : lookaheadCR rest with
        | some fcr => exact Or.inl h
        | none => exact Or.inl h
      · cases hg

theorem runSteps_pres (c : JStr) (Q : List PageRec → Prop)
    (hQne : ∀ l, Q l → l ≠ [])
    (hQapp : ∀ (l : List PageRec) (x : PageRec), Q l → Q (l ++ [x])) :
    ∀ (l : List PageRec) (st : List CRGroup × Option CRGroup),
      ((∃ h0 ∈ st.1, h0.cr = c ∧ Q h0.pages) ∨
        (∃ g, st.2 = some g ∧ g.cr = c ∧ Q g.pages)) →
      (∃ h0 ∈ (runSteps l st).1, h0.cr = c ∧ Q h0.pages) ∨
        ∃ g, (runSteps l st).2 = some g ∧ g.cr = c ∧ Q g.pages := by
  intro l
  induction l with
  | nil => intro st h; exact h
  | cons p rest ih =>
    intro st h
    exact ih _ (groupStep_pres c Q hQne hQapp p rest st.1 st.2 h)

theorem finalizeGroups_pres (c : JStr) (Q : List PageRec → Prop)
    (hQne : ∀ l, Q l → l ≠ [])
    (st : List CRGroup × Option CRGroup)
    (h : (∃ h0 ∈ st.1, h0.cr = c ∧ Q h0.pages) ∨
      (∃ g, st.2 = some g ∧ g.cr = c ∧ Q g.pages)) :
    ∃ h0 ∈ finalizeGroups st, h0.cr = c ∧ Q h0.pages := by
  unfold finalizeGroups
  rcases h with ⟨h0, hh0, hc, hq⟩ | ⟨g, hg, hc, hq⟩
  · refine ⟨h0, ?_, hc, hq⟩
    cases st.2 with
    | none => exact hh0
    | some g0 =>
      dsimp only
      split
      · exact hh0
      · exact List.mem_append_left _ hh0
  · rw [hg]
    have hne : g.pages.isEmpty = false := by
      rcases hne' : g.pages with _ | ⟨a, l⟩
      · exact absurd hne' (hQne _ hq)
      · rfl
    dsimp only
    rw [hne]
    exact ⟨g, List.mem_append_right _ (List.mem_singleton.mpr rfl), hc, hq⟩

theorem mergeInto_mem_acc (acc : List CRGroup) (g0 : CRGroup) (c : JStr)
    (p : PageRec) (h : ∃ g ∈ acc, g.cr = c ∧ p ∈ g.pages) :
    ∃ g ∈ mergeInto acc g0, g.cr = c ∧ p ∈ g.pages := by
  obtain ⟨y, hy, hc, hp⟩ := h
  unfold mergeInto
  split
  · refine ⟨if y.cr = g0.cr then { y with pages := y.pages ++ g0.pages }
      else y, List.mem_map_of_mem _ hy, ?_⟩
    by_cases he : y.cr = g0.cr
    · rw [if_pos he]
      exact ⟨hc, List.mem_append_left _ hp⟩
    · rw [if_neg he]
      exact ⟨hc, hp⟩
  · exact ⟨y, List.mem_append_left _ hy, hc, hp⟩

theorem mergeInto_mem_self (acc : List CRGroup) (g0 : CRGroup) (c : JStr)
    (p : PageRec) (hc : g0.cr = c) (hp : p ∈ g0.pages) :
    ∃ g ∈ mergeInto acc g0, g.cr = c ∧ p ∈ g.pages := by
  unfold mergeInto
  split
  · rename_i hany
    rw [List.any_eq_true] at hany
    obtain ⟨y, hy, hyc⟩ := hany
    rw [decide_eq_true_eq] at hyc
    refine ⟨{ y with pages := y.pages ++ g0.pages }, ?_, ?_, ?_⟩
    · have : (if y.cr = g0.cr then { y with pages := y.pages ++ g0.pages }
          else y) = { y with pages := y.pages ++ g0.pages } := if_pos hyc
      rw [← this]
      exact List.mem_map_of_mem _ hy
    · rw [← hc, hyc]
    · exact List.mem_append_right _ hp
  · exact ⟨g0, List.mem_append_right _ (List.mem_singleton.mpr rfl), hc, hp⟩

theorem mergeFold_mem (c : JStr) (p : PageRec) :
    ∀ (l acc : List CRGroup),
      ((∃ g ∈ acc, g.cr = c ∧ p ∈ g.pages) ∨
        (∃ g ∈ l, g.cr = c ∧ p ∈ g.pages)) →
      ∃ g ∈ l.foldl mergeInto acc, g.cr = c ∧ p ∈ g.pages := by
  intro l
  induction l with
  | nil =>
    intro acc h
    rcases h with h | ⟨g, hg, _⟩
    · exact h
    · cases hg
  | cons g0 rest ih =>
    intro acc h
    rcases h with h | ⟨g, hg, hc, hp⟩
    · exact ih _ (Or.inl (mergeInto_mem_acc acc g0 c p h))
    · rcases List.mem_cons.mp hg with h1 | h1
      · subst h1
        exact ih _ (Or.inl (mergeInto_mem_self acc g c p hc hp))
      · exact ih _ (Or.inr ⟨g, h1, hc, hp⟩)

theorem mergeGroups_mem (l : List CRGroup) (c : JStr) (p : PageRec)
    (h : ∃ g ∈ l, g.cr = c ∧ p ∈ g.pages) :
    ∃ g ∈ mergeGroups l, g.cr = c ∧ p ∈ g.pages :=
  mergeFold_mem c p l [] (Or.inr h)

theorem groupStep_inState (q page : PageRec) (rest : List PageRec)
    (groups : List CRGroup) (cur : Option CRGroup)
    (h : inState q (groupStep page rest groups cur)) :
    inState q (groups, cur) ∨ q = page := by
  by_cases hp : pageHasCR page
  · cases cur with
    | none =>
      simp only [groupStep, if_pos hp] at h
      rcases h with h | ⟨g, hg, hq⟩
      · exact Or.inl (Or.inl h)
      · injection hg with hg
        subst hg
        simp only [List.mem_singleton] at hq
        exact Or.inr hq
    | some g0 =>
      simp only [groupStep, if_pos hp] at h
      by_cases he : g0.cr = jsCR page
      · rw [if_pos he] at h
        rcases h with h | ⟨g, hg, hq⟩
        · exact Or.inl (Or.inl h)
        · injection hg with hg
          subst hg
          rcases List.mem_append.mp hq with h1 | h1
          · exact Or.inl (Or.inr ⟨g0, rfl, h1⟩)
          · simp only [List.mem_singleton] at h1
            exact Or.inr h1
      · rw [if_neg he] at h
        rcases h with ⟨g, hg, hq⟩ | ⟨g, hg, hq⟩
        · by_cases hemp : g0.pages.isEmpty
          · rw [if_pos hemp] at hg
            exact Or.inl (Or.inl ⟨g, hg, hq⟩)
          · rw [if_neg hemp] at hg
            rcases List.mem_append.mp hg with h1 | h1
            · exact Or.inl (Or.inl ⟨g, h1, hq⟩)
            · simp only [List.mem_singleton] at h1
              subst h1
              exact Or.inl (Or.inr ⟨g, rfl, hq⟩)
        · injection hg with hg
          subst hg
          simp only [List.mem_singleton] at hq
          exact Or.inr hq
  · cases cur with
    | some g0 =>
      simp only [groupStep, if_neg hp] at h
      by_cases hemp : g0.pages.isEmpty
      · rw [if_pos hemp] at h
        cases hla : lookaheadCR rest with
        | some fcr =>
          rw [hla] at h
          rcases h with h | ⟨g, hg, hq⟩
          · exact Or.inl (Or.inl h)
          · injection hg with hg
            subst hg
            simp only [List.mem_singleton] at hq
            exact Or.inr hq
        | none =>
          rw [hla] at h
          rcases h with h | ⟨g, hg, hq⟩
          · exact Or.inl (Or.inl h)
          · exact Or.inl (Or.inr ⟨g, hg, hq⟩)
      · rw [if_neg hemp] at h
        rcases h with h | ⟨g, hg, hq⟩
        · exact Or.inl (Or.inl h)
        · injection hg with hg
          subst hg
          rcases List.mem_append.mp hq with h1 | h1
          · exact Or.inl (Or.inr ⟨g0, rfl, h1⟩)
          · simp only [List.mem_singleton] at h1
            exact Or.inr h1
    | none =>
      simp only [groupStep, if_neg hp] at h
      cases hla : lookaheadCR rest with
      | some fcr =>
        rw [hla] at h
        rcases h with h | ⟨g, hg, hq⟩
        · exact Or.inl (Or.inl h)
        · injection hg with hg
          subst hg
          simp only [List.mem_singleton] at hq
          exact Or.inr hq
      | none =>
        rw [hla] at h
        rcases h with h | ⟨g, hg, _⟩
        · exact Or.inl (Or.inl h)
        · cases hg

theorem runSteps_inState (q : PageRec) :
    ∀ (l : List PageRec) (st : List CRGroup × Option CRGroup),
      inState q (runSteps l st) → inState q st ∨ q ∈ l := by
  intro l
  induction l with
  | nil => intro st h; exact Or.inl h
  | cons p rest ih =>
    intro st h
    rcases ih _ h with h1 | h1
    · rcases groupStep_inState q p rest st.1 st.2 h1 with h2 | h2
      · exact Or.inl h2
      · exact Or.inr (h2 ▸ List.mem_cons_self p rest)
    · exact Or.inr (List.mem_cons_of_mem p h1)

theorem cutRun_inState (q : PageRec) :
    ∀ (pre suff : List PageRec) (st : List CRGroup × Option CRGroup),
      inState q (cutRun pre suff st) → inState q st ∨ q ∈ pre := by
  intro pre
  induction pre with
  | nil => intro suff st h; exact Or.inl h
  | cons p ps ih =>
    intro suff st h
    rcases ih suff _ h with h1 | h1
    · rcases groupStep_inState q p (ps ++ suff) st.1 st.2 h1 with h2 | h2
      · exact Or.inl h2
      · exact Or.inr (h2 ▸ List.mem_cons_self p ps)
    · exact Or.inr (List.mem_cons_of_mem p h1)

theorem finalizeGroups_inState (q : PageRec)
    (st : List CRGroup × Option CRGroup)
    (h : ∃ g ∈ finalizeGroups st, q ∈ g.pages) : inState q st := by
  obtain ⟨g, hg, hq⟩ := h
  unfold finalizeGroups at hg
  cases hc : st.2 with
  | none =>
    rw [hc] at hg
    exact Or.inl ⟨g, hg, hq⟩
  | some g0 =>
    rw [hc] at hg
    dsimp only at hg
    split at hg
    · exact Or.inl ⟨g, hg, hq⟩
    · rcases List.mem_append.mp hg with h1 | h1
      · exact Or.inl ⟨g, h1, hq⟩
      · simp only [List.mem_singleton] at h1
        subst h1
        exact Or.inr ⟨g, hc, hq⟩

theorem mergeInto_mem_rev (acc : List CRGroup) (g0 : CRGroup) (q : PageRec)
    (h : ∃ g ∈ mergeInto acc g0, q ∈ g.pages) :
    (∃ g ∈ acc, q ∈ g.pages) ∨ q ∈ g0.pages := by
  obtain ⟨g, hg, hq⟩ := h
  unfold mergeInto at hg
  split at hg
  · obtain ⟨y, hy, hxy⟩ := List.mem_map.mp hg
    subst hxy
    by_cases he : y.cr = g0.cr
    · rw [if_pos he] at hq
      rcases List.mem_append.mp hq with h1 | h1
      · exact Or.inl ⟨y, hy, h1⟩
      · exact Or.inr h1
    · rw [if_neg he] at hq
      exact Or.inl ⟨y, hy, hq⟩
  · rcases List.mem_append.mp hg with h1 | h1
    · exact Or.inl ⟨g, h1, hq⟩
    · simp only [List.mem_singleton] at h1
      subst h1
      exact Or.inr hq

theorem mergeFold_mem_rev (q : PageRec) :
    ∀ (l acc : List CRGroup),
      (∃ g ∈ l.foldl mergeInto acc, q ∈ g.pages) →
      (∃ g ∈ acc, q ∈ g.pages) ∨ ∃ g ∈ l, q ∈ g.pages := by
  intro l
  induction l with
  | nil => intro acc h; exact Or.inl h
  | cons g0 rest ih =>
    intro acc h
    rcases ih _ h with h1 | h1
    · rcases mergeInto_mem_rev acc g0 q h1 with h2 | h2
      · exact Or.inl h2
      · exact Or.inr ⟨g0, List.mem_cons_self g0 rest, h2⟩
    · obtain ⟨g, hg, hq⟩ := h1
      exact Or.inr ⟨g, List.mem_cons_of_mem g0 hg, hq⟩

theorem isEmpty_false_of_ne_nil {α : Type _} {l : List α} (h : l ≠ []) :
    l.isEmpty = false := by
  cases l
  · exact absurd rfl h
  · rfl

theorem head?_append_of_some {α : Type _} {l : List α} {x p : α}
    (h : l.head? = some p) : (l ++ [x]).head? = some p := by
  cases l
  · cases h
  · exact h

theorem groupStep_orphan_none (page : PageRec) (rest : List PageRec)
    (gs : List CRGroup) (hp : pageHasCR page = false)
    (hla : lookaheadCR rest = none) :
    groupStep page rest gs none = (gs, none) := by
  simp [groupStep, hp, hla]

theorem groupStep_orphan_anchor (page : PageRec) (rest : List PageRec)
    (gs : List CRGroup) (fcr : JStr) (hp : pageHasCR page = false)
    (hla : lookaheadCR rest = some fcr) :
    groupStep page rest gs none =
      (gs, some ⟨fcr, getCRType fcr, [page]⟩) := by
  simp [groupStep, hp, hla]

theorem groupStep_orphan_append (page : PageRec) (rest : List PageRec)
    (gs : List CRGroup) (g : CRGroup) (hp : pageHasCR page = false)
    (hne : g.pages.isEmpty = false) :
    groupStep page rest gs (some g) =
      (gs, some { g with pages := g.pages ++ [page] }) := by
  simp [groupStep, hp, hne]

/-- C6: orphan-page handling of `groupPagesByCR`.
(i) A page with no identifier reaching the loop while a group is open is
appended to it: it ends up in the output group carrying that group's
identifier.  (ii) With no open group, the page becomes the first member of a
new group anchored to the first identifier among the next two pages, and ends
up in the output group carrying that identifier.  (iii) With no open group
and no identifier within the two-page lookahead, the page is dropped: it
appears in no output group.  (iv) In particular, a 3-page document whose
first page alone carries identifier "577770" yields exactly one group with
all three pages. -/
theorem c6_orphan_page_grouping :
    (∀ (pre : List PageRec) (page : PageRec) (suff : List PageRec)
        (gs : List CRGroup) (g : CRGroup),
        cutRun pre (page :: suff) ([], none) = (gs, some g) →
        pageHasCR page = false →
        ∃ h ∈ groupPagesByCR (pre ++ page :: suff),
          h.cr = g.cr ∧ page ∈ h.pages) ∧
    (∀ (pre : List PageRec) (page : PageRec) (suff : List PageRec)
        (gs : List CRGroup) (fcr : JStr),
        cutRun pre (page :: suff) ([], none) = (gs, none) →
        pageHasCR page = false →
        lookaheadCR suff = some fcr →
        (∃ h ∈ groupLoopResult (pre ++ page :: suff),
          h.cr = fcr ∧ h.pages.head? = some page) ∧
        ∃ h ∈ groupPagesByCR (pre ++ page :: suff),
          h.cr = fcr ∧ page ∈ h.pages) ∧
    (∀ (pre : List PageRec) (page : PageRec) (suff : List PageRec)
        (gs : List CRGroup),
        cutRun pre (page :: suff) ([], none) = (gs, none) →
        pageHasCR page = false →
        lookaheadCR suff = none →
        (∀ q ∈ pre, q.pageIndex ≠ page.pageIndex) →
        (∀ q ∈ suff, q.pageIndex ≠ page.pageIndex) →
        ∀ h ∈ groupPagesByCR (pre ++ page :: suff), page ∉ h.pages) ∧
    groupPagesByCR
        [⟨0, 1, some "577770".data, "H01"⟩, ⟨1, 2, none, ""⟩,
         ⟨2, 3, none, ""⟩] =
      [⟨"577770".data, "H01",
        [⟨0, 1, some "577770".data, "H01"⟩, ⟨1, 2, none, ""⟩,
         ⟨2, 3, none, ""⟩]⟩] := by
  refine ⟨?_, ?_, ?_, by decide⟩
  · -- (i) append to the open group
    intro pre page suff gs g hcut hp
    have hwf := (cutRun_wf pre (page :: suff) ([], none) (by simp)
      (by simp)).2
    rw [hcut] at hwf
    have hgne : g.pages.isEmpty = false :=
      isEmpty_false_of_ne_nil (hwf g rfl).2
    unfold groupPagesByCR groupLoopResult
    rw [runSteps_append pre (page :: suff) ([], none), hcut]
    have hrw : runSteps (page :: suff) (gs, some g) =
        runSteps suff (gs, some { g with pages := g.pages ++ [page] }) := by
      show runSteps suff (groupStep page suff gs (some g)) = _
      rw [groupStep_orphan_append page suff gs g hp hgne]
    rw [hrw]
    apply mergeGroups_mem
    apply finalizeGroups_pres g.cr (fun l => page ∈ l)
      (fun l hl => List.ne_nil_of_mem hl)
    apply runSteps_pres g.cr (fun l => page ∈ l)
      (fun l hl => List.ne_nil_of_mem hl)
      (fun l x hl => List.mem_append_left _ hl)
    exact Or.inr ⟨_, rfl, rfl,
      List.mem_append_right _ (List.mem_singleton.mpr rfl)⟩
  · -- (ii) anchor to the first identifier in the 2-page lookahead
    intro pre page suff gs fcr hcut hp hla
    have hQne : ∀ l : List PageRec,
        (page ∈ l ∧ l.head? = some page) → l ≠ [] := by
      intro l hl
      cases l
      · cases hl.2
      · simp
    have hQapp : ∀ (l : List PageRec) (x : PageRec),
        (page ∈ l ∧ l.head? = some page) →
        (page ∈ l ++ [x] ∧ (l ++ [x]).head? = some page) :=
      fun l x hl => ⟨List.mem_append_left _ hl.1, head?_append_of_some hl.2⟩
    have hpre : ∃ h ∈ groupLoopResult (pre ++ page :: suff),
        h.cr = fcr ∧ (page ∈ h.pages ∧ h.pages.head? = some page) := by
      unfold groupLoopResult
      rw [runSteps_append pre (page :: suff) ([], none), hcut]
      have hrw : runSteps (page :: suff) (gs, none) =
          runSteps suff (gs, some ⟨fcr, getCRType fcr, [page]⟩) := by
        show runSteps suff (groupStep page suff gs none) = _
        rw [groupStep_orphan_anchor page suff gs fcr hp hla]
      rw [hrw]
      apply finalizeGroups_pres fcr _ hQne
      apply runSteps_pres fcr _ hQne hQapp
      exact Or.inr ⟨_, rfl, rfl, List.mem_singleton.mpr rfl, rfl⟩
    obtain ⟨h, hh, hc, hq⟩ := hpre
    refine ⟨⟨h, hh, hc, hq.2⟩, ?_⟩
    exact mergeGroups_mem _ fcr page ⟨h, hh, hc, hq.1⟩
  · -- (iii) dropped orphan
    intro pre page suff gs hcut hp hla hpreIdx hsuffIdx h hh hpage
    unfold groupPagesByCR groupLoopResult at hh
    rw [runSteps_append pre (page :: suff) ([], none), hcut] at hh
    have hrw : runSteps (page :: suff) (gs, none) =
        runSteps suff (gs, none) := by
      show runSteps suff (groupStep page suff gs none) = _
      rw [groupStep_orphan_none page suff gs hp hla]
    rw [hrw] at hh
    have h1 : ∃ g ∈ finalizeGroups (runSteps suff (gs, none)),
        page ∈ g.pages := by
      rcases mergeFold_mem_rev page (finalizeGroups
          (runSteps suff (gs, none))) [] ⟨h, hh, hpage⟩ with h2 | h2
      · obtain ⟨g, hg, _⟩ := h2
        cases hg
      · exact h2
    have h2 := finalizeGroups_inState page _ h1
    rcases runSteps_inState page suff _ h2 with h3 | h3
    · have h4 : inState page (cutRun pre (page :: suff) ([], none)) := by
        rw [hcut]
        exact h3
      rcases cutRun_inState page pre (page :: suff) ([], none) h4 with h5 | h5
      · rcases h5 with ⟨g, hg, _⟩ | ⟨g, hg, _⟩
        · cases hg
        · cases hg
      · exact hpreIdx page h5 rfl
    · exact hsuffIdx page h3 rfl

theorem c6_orphan_page_grouping_witness :
    ∃ h ∈ groupPagesByCR
        [⟨0, 1, some "577770".data, "H01"⟩, ⟨1, 2, none, ""⟩,
         ⟨2, 3, none, ""⟩],
      h.cr = "577770".data ∧ (⟨1, 2, none, ""⟩ : PageRec) ∈ h.pages :=
  c6_orphan_page_grouping.1 [⟨0, 1, some "577770".data, "H01"⟩]
    ⟨1, 2, none, ""⟩ [⟨2, 3, none, ""⟩] []
    ⟨"577770".data, "H01", [⟨0, 1, some "577770".data, "H01"⟩]⟩
    (by decide) (by decide)

/-! ## Claim C7 -/
theorem computeOverall_table :
    ∀ (s g : TriStatus) (d : Bool),
      (s = .PRESENT → g = .PRESENT → d = true →
        computeOverall s g d = .COMPLETE) ∧
      (s = .PRESENT → g = .PRESENT → d = false →
        computeOverall s g d = .DATE_MISSING) ∧
      (s = .MISSING → g = .MISSING → computeOverall s g d = .BOTH_MISSING) ∧
      (s = .UNCERTAIN ∨ g = .UNCERTAIN →
        computeOverall s g d = .NEEDS_REVIEW) ∧
      (s = .MISSING → g = .PRESENT → computeOverall s g d = .STAMP_MISSING) ∧
      (s = .PRESENT → g = .MISSING →
        computeOverall s g d = .SIGNATURE_MISSING) := by
  decide

/-- C7: the `overallStatus` returned by `analyzeStampAndSignature` follows the
fixed decision table: both present and date present → COMPLETE; both present,
date absent → DATE_MISSING; both absent → BOTH_MISSING; exactly one absent
with neither uncertain → STAMP_MISSING or SIGNATURE_MISSING respectively; any
uncertain status involved → NEEDS_REVIEW. -/
theorem c7_overall_status_table (roiA dateA : ROIAnalysis)
    (sigA : StrokeStats) (cfg : VerifyConfig) :
    ((analyzeStampAndSignature roiA dateA sigA cfg).stampStatus = .PRESENT →
      (analyzeStampAndSignature roiA dateA sigA cfg).signatureStatus = .PRESENT →
      (analyzeStampAndSignature roiA dateA sigA cfg).dateStatus = true →
      (analyzeStampAndSignature roiA dateA sigA cfg).overallStatus = .COMPLETE) ∧
    ((analyzeStampAndSignature roiA dateA sigA cfg).stampStatus = .PRESENT →
      (analyzeStampAndSignature roiA dateA sigA cfg).signatureStatus = .PRESENT →
      (analyzeStampAndSignature roiA dateA sigA cfg).dateStatus = false →
      (analyzeStampAndSignature roiA dateA sigA cfg).overallStatus = .DATE_MISSING) ∧
    ((analyzeStampAndSignature roiA dateA sigA cfg).stampStatus = .MISSING →
      (analyzeStampAndSignature roiA dateA sigA cfg).signatureStatus = .MISSING →
      (analyzeStampAndSignature roiA dateA sigA cfg).overallStatus = .BOTH_MISSING) ∧
    ((analyzeStampAndSignature roiA dateA sigA cfg).stampStatus = .UNCERTAIN ∨
        (analyzeStampAndSignature roiA dateA sigA cfg).signatureStatus = .UNCERTAIN →
      (analyzeStampAndSignature roiA dateA sigA cfg).overallStatus = .NEEDS_REVIEW) ∧
    ((analyzeStampAndSignature roiA dateA sigA cfg).stampStatus = .MISSING →
      (analyzeStampAndSignature roiA dateA sigA cfg).signatureStatus = .PRESENT →
      (analyzeStampAndSignature roiA dateA sigA cfg).overallStatus = .STAMP_MISSING) ∧
    ((analyzeStampAndSignature roiA dateA sigA cfg).stampStatus = .PRESENT →
      (analyzeStampAndSignature roiA dateA sigA cfg).signatureStatus = .MISSING →
      (analyzeStampAndSignature roiA dateA sigA cfg).overallStatus = .SIGNATURE_MISSING) :=
  computeOverall_table
    (stampStatusOf roiA.blueDensity (jsOrQ cfg.blueThreshold 0.25))
    (signatureStatusOf sigA).1 (dateFieldHasDate dateA)

theorem c7_overall_status_table_witness :
    (analyzeStampAndSignature ⟨0, 1, 0, 0⟩ ⟨1, 0, 0, 0⟩ ⟨1, 1, 1, 1⟩
      ⟨none, none, none⟩).overallStatus = .COMPLETE :=
  (c7_overall_status_table ⟨0, 1, 0, 0⟩ ⟨1, 0, 0, 0⟩ ⟨1, 1, 1, 1⟩
    ⟨none, none, none⟩).1
    (by norm_num [analyzeStampAndSignature, stampStatusOf, jsOrQ])
    (by norm_num [analyzeStampAndSignature, signatureStatusOf,
      hasBlackInkSignature])
    (by norm_num [analyzeStampAndSignature, dateFieldHasDate])

